import Mathlib

/-!
Shallow embedding, in Lean 4, of the core components of the ProjectFinal
book-recommendation backend (`auth-app/backend`), together with theorems
checking the natural-language specification against the code.

Components embedded:
* `InteractionCounter` — the MongoDB interaction counter and its training
  trigger (`models/interaction_counter.py`), sequentially and under
  arbitrary interleavings of concurrent `increment_counter` calls.
* `AuthorPrefs` — the per-user sorted author-preference document
  (`models/user_sorted_author_preferences.py`).
* `Interactions` — the like/dislike flows of
  `models/user_book_interaction.py`, over an explicit per-user state.
* `Ubcf` — the enhanced user-based collaborative-filtering cascade of
  `models/recommendation_engine.py`.
* `ContentTraining` — the streaming training pipeline of
  `models/ContentBasedRecommender.py`, at the granularity of its writes to
  persistent storage.
* `FeaturePipe` — the single-book feature transform
  (`_transform_single_book_to_vector`) over exact arithmetic.
* `SimilarBooks` — the single-anchor similarity query
  (`get_similar_books_for_user`).

External collaborators (MongoDB, Redis, FAISS, scikit-learn, the training
subprocess) appear as explicit parameters of the embeddings; machine floats
are modelled by exact rationals (reals only for the final L2 normalization).
-/

namespace InteractionCounter

/-- Sequential state of the global interaction counter
(`interaction_counter.py`): the persisted counter document
(`current_count`, `threshold`) plus the in-process training flag and a
count of background training runs started. -/
structure St where
  currentCount : Nat
  threshold : Nat
  trainingInProgress : Bool
  trainingsStarted : Nat
  deriving Repr, DecidableEq

/-- The counter document created by `_initialize_counter`, with the
configured `INTERACTION_THRESHOLD = 10` and no training running. -/
def initSt : St :=
  { currentCount := 0, threshold := 10, trainingInProgress := false,
    trainingsStarted := 0 }

/-- `_trigger_model_training`: under the training lock, drop the trigger if
a training is already in progress; otherwise set the in-progress flag,
reset the counter to 0 and start one background training thread. Returns
whether training was triggered. -/
def triggerModelTraining (s : St) : Bool × St :=
  if s.trainingInProgress then (false, s)
  else
    (true, { s with trainingInProgress := true, currentCount := 0,
                    trainingsStarted := s.trainingsStarted + 1 })

/-- `increment_counter`: atomically increment `current_count`; if the
post-increment value reaches the threshold, call
`_trigger_model_training`. Returns whether training was triggered. -/
def incrementCounter (s : St) : Bool × St :=
  let s1 := { s with currentCount := s.currentCount + 1 }
  if s1.threshold ≤ s1.currentCount then triggerModelTraining s1
  else (false, s1)

/-- `n` sequential calls to `increment_counter`, keeping only the state. -/
def iterateIncrements : Nat → St → St
  | 0, s => s
  | n + 1, s => iterateIncrements n (incrementCounter s).2

end InteractionCounter

/-- C2: with the interaction counter at 0 and threshold 10, nine sequential
calls to `increment_counter` trigger no training and leave `current_count`
at 9; the tenth call triggers training exactly once and resets
`current_count` to 0; and no single call ever starts more than one
training run, so no crossing of the threshold triggers two runs. -/
theorem counter_sequential_threshold_c2 :
    (InteractionCounter.iterateIncrements 9 InteractionCounter.initSt).currentCount = 9 ∧
    (InteractionCounter.iterateIncrements 9 InteractionCounter.initSt).trainingsStarted = 0 ∧
    (InteractionCounter.incrementCounter
        (InteractionCounter.iterateIncrements 9 InteractionCounter.initSt)).1 = true ∧
    (InteractionCounter.incrementCounter
        (InteractionCounter.iterateIncrements 9 InteractionCounter.initSt)).2.currentCount = 0 ∧
    (InteractionCounter.incrementCounter
        (InteractionCounter.iterateIncrements 9 InteractionCounter.initSt)).2.trainingsStarted = 1 ∧
    ∀ s : InteractionCounter.St,
      (InteractionCounter.incrementCounter s).2.trainingsStarted ≤ s.trainingsStarted + 1 := by
  refine ⟨by decide, by decide, by decide, by decide, by decide, ?_⟩
  intro s
  unfold InteractionCounter.incrementCounter InteractionCounter.triggerModelTraining
  dsimp only
  split
  · split
    · exact Nat.le_succ _
    · exact Nat.le_refl _
  · exact Nat.le_succ _

namespace CounterRace

/-- State of `n` concurrently in-flight `increment_counter` calls over the
shared counter document. Each call `i` is at a program point `pc i`:
0 = has not yet run its atomic `find_one_and_update`;
1 = has incremented and recorded the post-increment value `obs i`, but has
not yet examined the threshold / training lock;
2 = has observed `obs i ≥ threshold`, acquired the lock and set the
in-progress flag, but has not yet reset the counter and started the thread;
3 = returned. `trainings` counts background training threads started. -/
structure RSt (n : Nat) where
  count : Nat
  flag : Bool
  trainings : Nat
  pc : Fin n → Nat
  obs : Fin n → Nat

/-- Initial state: counter document at 0, no training in progress, all `n`
calls yet to run. -/
def rinit (n : Nat) : RSt n :=
  { count := 0, flag := false, trainings := 0, pc := fun _ => 0, obs := fun _ => 0 }

/-- One atomic step of call `i` with threshold `th`, following
`increment_counter` / `_trigger_model_training`:
at pc 0, the atomic `$inc` returning the updated document;
at pc 1, the threshold comparison and, when it passes, the locked check-and-set
of `_training_in_progress` (a trigger arriving while the flag is set is
dropped and the call returns);
at pc 2, `reset_counter()` followed by starting the background thread. -/
def step (th : Nat) (s : RSt n) (i : Fin n) : RSt n :=
  if s.pc i = 0 then
    { s with count := s.count + 1,
             pc := Function.update s.pc i 1,
             obs := Function.update s.obs i (s.count + 1) }
  else if s.pc i = 1 then
    if th ≤ s.obs i then
      if s.flag then { s with pc := Function.update s.pc i 3 }
      else { s with flag := true, pc := Function.update s.pc i 2 }
    else { s with pc := Function.update s.pc i 3 }
  else if s.pc i = 2 then
    { s with count := 0, trainings := s.trainings + 1,
             pc := Function.update s.pc i 3 }
  else s

/-- Run an interleaving: the schedule lists, in global order, which call
executes its next atomic step. -/
def run (th : Nat) (sch : List (Fin n)) (s : RSt n) : RSt n :=
  sch.foldl (step th) s

/-- Number of calls that have already executed their atomic increment. -/
def dones (s : RSt n) : Nat := (Finset.univ.filter fun i => 1 ≤ s.pc i).card

/-- Global invariant of the interleaved execution with threshold `th = n`:
before any trigger, the counter equals the number of increments performed,
the observed values are distinct and bounded by it, and every completed
call observed a value below the threshold; once the flag is set, at most
one call is between flag-set and thread-start, and a training thread has
been started exactly when no call is at that point any more. -/
def Inv (n : Nat) (s : RSt n) : Prop :=
  (∀ i : Fin n, s.pc i ≤ 3) ∧
  (s.flag = false →
    s.trainings = 0 ∧ s.count = dones s ∧ (∀ i : Fin n, s.pc i ≠ 2) ∧
    (∀ i : Fin n, 1 ≤ s.pc i → 1 ≤ s.obs i ∧ s.obs i ≤ dones s) ∧
    (∀ i j : Fin n, 1 ≤ s.pc i → 1 ≤ s.pc j → i ≠ j → s.obs i ≠ s.obs j) ∧
    (∀ i : Fin n, s.pc i = 3 → s.obs i < n)) ∧
  (s.flag = true →
    (∀ i : Fin n, 1 ≤ s.pc i) ∧
    ((∃! i : Fin n, s.pc i = 2) ∧ s.trainings = 0 ∨
     (∀ i : Fin n, s.pc i ≠ 2) ∧ s.trainings = 1))

theorem dones_le (s : RSt n) : dones s ≤ n := by
  classical
  calc dones s ≤ Finset.univ.card := Finset.card_filter_le _ _
  _ = n := Finset.card_fin n

theorem dones_update_of_zero (s : RSt n) (i : Fin n) (h : s.pc i = 0) :
    dones { s with count := s.count + 1,
                   pc := Function.update s.pc i 1,
                   obs := Function.update s.obs i (s.count + 1) } = dones s + 1 := by
  classical
  unfold dones
  dsimp only
  have : (Finset.univ.filter fun j => 1 ≤ Function.update s.pc i 1 j)
      = insert i (Finset.univ.filter fun j => 1 ≤ s.pc j) := by
    ext j
    by_cases hj : j = i
    · subst hj
      simp [Function.update_same, h]
    · simp [Function.update_noteq hj, hj]
  rw [this, Finset.card_insert_of_not_mem]
  simp [h]

theorem dones_update_pc (s : RSt n) (i : Fin n) (v : Nat) (hv : 1 ≤ v)
    (h : 1 ≤ s.pc i) :
    (Finset.univ.filter fun j => 1 ≤ Function.update s.pc i v j).card = dones s := by
  classical
  unfold dones
  congr 1
  ext j
  by_cases hj : j = i
  · subst hj
    simp [Function.update_same, h, hv]
  · simp [Function.update_noteq hj]

end CounterRace

namespace CounterRace

theorem step_pc_other (th : Nat) (s : RSt n) (a i : Fin n) (h : i ≠ a) :
    (step th s a).pc i = s.pc i := by
  unfold step
  by_cases h0 : s.pc a = 0
  · simp [h0, Function.update_noteq h]
  · by_cases h1 : s.pc a = 1
    · by_cases hth : th ≤ s.obs a
      · by_cases hf : s.flag <;> simp [h0, h1, hth, hf, Function.update_noteq h]
      · simp [h0, h1, hth, Function.update_noteq h]
    · by_cases h2 : s.pc a = 2
      · simp [h0, h1, h2, Function.update_noteq h]
      · simp [h0, h1, h2]

theorem inv_init (n : Nat) : Inv n (rinit n) := by
  refine ⟨fun i => by simp [rinit], fun _ => ?_, fun hf => by simp [rinit] at hf⟩
  refine ⟨rfl, ?_, fun i => by simp [rinit],
    fun i h => by simp [rinit] at h,
    fun i j hi => by simp [rinit] at hi,
    fun i h => by simp [rinit] at h⟩
  simp [rinit, dones]

theorem inv_step (n : Nat) (s : RSt n) (i : Fin n) (h : Inv n s) :
    Inv n (step n s i) := by
  classical
  obtain ⟨hpc3, hF, hT⟩ := h
  by_cases h0 : s.pc i = 0
  · -- the atomic increment
    have hs : step n s i = { s with count := s.count + 1, pc := Function.update s.pc i 1, obs := Function.update s.obs i (s.count + 1) } := by
      unfold step; rw [if_pos h0]
    by_cases hf : s.flag = true
    · exfalso
      have := (hT hf).1 i
      omega
    · have hf' : s.flag = false := by revert hf; cases s.flag <;> simp
      obtain ⟨htr, hcnt, hno2, hobs, hinj, hdn⟩ := hF hf'
      have hdone := dones_update_of_zero s i h0
      rw [hs]
      refine ⟨?_, ?_, ?_⟩
      · intro j
        by_cases hj : j = i
        · subst hj; simp [Function.update_same]
        · simpa [Function.update_noteq hj] using hpc3 j
      · intro _
        refine ⟨htr, ?_, ?_, ?_, ?_, ?_⟩
        · rw [hdone]
          show s.count + 1 = dones s + 1
          omega
        · intro j
          by_cases hj : j = i
          · subst hj; simp [Function.update_same]
          · simpa [Function.update_noteq hj] using hno2 j
        · intro j hj
          rw [hdone]
          by_cases hji : j = i
          · subst hji
            simp only [Function.update_same]
            omega
          · simp only [Function.update_noteq hji] at hj ⊢
            have := hobs j hj
            omega
        · intro j k hj hk hjk
          by_cases hji : j = i
          · subst hji
            have hki : k ≠ j := fun hh => hjk hh.symm
            simp only [Function.update_same, Function.update_noteq hki] at hk ⊢
            have := hobs k hk
            omega
          · by_cases hki : k = i
            · subst hki
              simp only [Function.update_same, Function.update_noteq hji] at hj ⊢
              have := hobs j hj
              omega
            · simp only [Function.update_noteq hji, Function.update_noteq hki] at hj hk ⊢
              exact hinj j k hj hk hjk
        · intro j hj
          by_cases hji : j = i
          · subst hji; simp [Function.update_same] at hj
          · simp only [Function.update_noteq hji] at hj ⊢
            exact hdn j hj
      · intro hft
        exfalso
        rw [show ({ s with count := s.count + 1, pc := Function.update s.pc i 1, obs := Function.update s.obs i (s.count + 1) } : RSt n).flag = s.flag from rfl, hf'] at hft
        cases hft
  · by_cases h1 : s.pc i = 1
    · by_cases hth : n ≤ s.obs i
      · by_cases hf : s.flag = true
        · -- trigger is dropped: the flag is already set
          have hs : step n s i = { s with pc := Function.update s.pc i 3 } := by
            unfold step; rw [if_neg h0, if_pos h1, if_pos hth, if_pos hf]
          obtain ⟨hall, hdisj⟩ := hT hf
          rw [hs]
          refine ⟨?_, ?_, ?_⟩
          · intro j
            by_cases hj : j = i
            · subst hj; simp [Function.update_same]
            · simpa [Function.update_noteq hj] using hpc3 j
          · intro hf0
            exfalso
            rw [show ({ s with pc := Function.update s.pc i 3 } : RSt n).flag = s.flag
              from rfl, hf] at hf0
            cases hf0
          · intro _
            refine ⟨?_, ?_⟩
            · intro j
              by_cases hj : j = i
              · subst hj; simp [Function.update_same]
              · simpa [Function.update_noteq hj] using hall j
            · rcases hdisj with ⟨⟨w, hw, huniq⟩, htr0⟩ | ⟨hno, htr1⟩
              · left
                have hwi : w ≠ i := fun hh => by rw [hh, h1] at hw; omega
                refine ⟨⟨w, ?_, ?_⟩, htr0⟩
                · simpa [Function.update_noteq hwi] using hw
                · intro j hj
                  by_cases hji : j = i
                  · subst hji; simp [Function.update_same] at hj
                  · exact huniq j (by simpa [Function.update_noteq hji] using hj)
              · right
                refine ⟨?_, htr1⟩
                intro j
                by_cases hji : j = i
                · subst hji; simp [Function.update_same]
                · simpa [Function.update_noteq hji] using hno j
        · -- successful trigger: set the flag, move to the reset point
          have hf' : s.flag = false := by revert hf; cases s.flag <;> simp
          have hs : step n s i = { s with flag := true, pc := Function.update s.pc i 2 } := by
            unfold step
            rw [if_neg h0, if_pos h1, if_pos hth, if_neg (by rw [hf']; simp)]
          obtain ⟨htr, hcnt, hno2, hobs, hinj, hdn⟩ := hF hf'
          have hobsi := hobs i (by omega)
          have hdnn : dones s = n := le_antisymm (dones_le s) (le_trans hth hobsi.2)
          have hall : ∀ j, 1 ≤ s.pc j := by
            intro j
            by_contra hj
            have hmem : j ∉ (Finset.univ.filter fun k => 1 ≤ s.pc k) := by
              simp [hj]
            have hss : (Finset.univ.filter fun k => 1 ≤ s.pc k) ⊂ Finset.univ :=
              ⟨Finset.filter_subset _ _, fun hsub => hmem (hsub (Finset.mem_univ j))⟩
            have := Finset.card_lt_card hss
            rw [Finset.card_fin] at this
            unfold dones at hdnn
            omega
          rw [hs]
          refine ⟨?_, ?_, ?_⟩
          · intro j
            by_cases hj : j = i
            · subst hj; simp [Function.update_same]
            · simpa [Function.update_noteq hj] using hpc3 j
          · intro hf0
            cases hf0
          · intro _
            refine ⟨?_, Or.inl ⟨⟨i, by simp [Function.update_same], ?_⟩, htr⟩⟩
            · intro j
              by_cases hj : j = i
              · subst hj; simp [Function.update_same]
              · simpa [Function.update_noteq hj] using hall j
            · intro j hj
              by_cases hji : j = i
              · exact hji
              · exfalso
                exact hno2 j (by simpa [Function.update_noteq hji] using hj)
      · -- below the threshold: return without triggering
        have hs : step n s i = { s with pc := Function.update s.pc i 3 } := by
          unfold step; rw [if_neg h0, if_pos h1, if_neg hth]
        rw [hs]
        refine ⟨?_, ?_, ?_⟩
        · intro j
          by_cases hj : j = i
          · subst hj; simp [Function.update_same]
          · simpa [Function.update_noteq hj] using hpc3 j
        · intro hf0
          have hf' : s.flag = false := hf0
          obtain ⟨htr, hcnt, hno2, hobs, hinj, hdn⟩ := hF hf'
          have hdones : dones { s with pc := Function.update s.pc i 3 } = dones s :=
            dones_update_pc s i 3 (by omega) (by omega)
          refine ⟨htr, by rw [hdones]; exact hcnt, ?_, ?_, ?_, ?_⟩
          · intro j
            by_cases hj : j = i
            · subst hj; simp [Function.update_same]
            · simpa [Function.update_noteq hj] using hno2 j
          · intro j hj
            rw [hdones]
            by_cases hji : j = i
            · subst hji
              exact hobs j (by omega)
            · simp only [Function.update_noteq hji] at hj
              exact hobs j hj
          · intro j k hj hk hjk
            by_cases hji : j = i
            · subst hji
              have hki : k ≠ j := fun hh => hjk hh.symm
              simp only [Function.update_noteq hki] at hk
              exact hinj j k (by omega) hk hjk
            · by_cases hki : k = i
              · subst hki
                simp only [Function.update_noteq hji] at hj
                exact hinj j k hj (by omega) hjk
              · simp only [Function.update_noteq hji, Function.update_noteq hki] at hj hk
                exact hinj j k hj hk hjk
          · intro j hj
            by_cases hji : j = i
            · subst hji
              show s.obs j < n
              omega
            · simp only [Function.update_noteq hji] at hj
              exact hdn j hj
        · intro hft
          obtain ⟨hall, hdisj⟩ := hT hft
          refine ⟨?_, ?_⟩
          · intro j
            by_cases hj : j = i
            · subst hj; simp [Function.update_same]
            · simpa [Function.update_noteq hj] using hall j
          · rcases hdisj with ⟨⟨w, hw, huniq⟩, htr0⟩ | ⟨hno, htr1⟩
            · left
              have hwi : w ≠ i := fun hh => by rw [hh, h1] at hw; omega
              refine ⟨⟨w, by simpa [Function.update_noteq hwi] using hw, ?_⟩, htr0⟩
              intro j hj
              by_cases hji : j = i
              · subst hji; simp [Function.update_same] at hj
              · exact huniq j (by simpa [Function.update_noteq hji] using hj)
            · right
              refine ⟨?_, htr1⟩
              intro j
              by_cases hji : j = i
              · subst hji; simp [Function.update_same]
              · simpa [Function.update_noteq hji] using hno j
    · by_cases h2 : s.pc i = 2
      · -- reset the counter and start the background thread
        have hs : step n s i = { s with count := 0, trainings := s.trainings + 1, pc := Function.update s.pc i 3 } := by
          unfold step; rw [if_neg h0, if_neg h1, if_pos h2]
        have hf : s.flag = true := by
          by_contra hff
          have hf' : s.flag = false := by revert hff; cases s.flag <;> simp
          exact (hF hf').2.2.1 i h2
        obtain ⟨hall, hdisj⟩ := hT hf
        rcases hdisj with ⟨⟨w, hw, huniq⟩, htr0⟩ | ⟨hno, _⟩
        · have hwi : w = i := (huniq i h2).symm
          subst hwi
          rw [hs]
          refine ⟨?_, ?_, ?_⟩
          · intro j
            by_cases hj : j = w
            · subst hj; simp [Function.update_same]
            · simpa [Function.update_noteq hj] using hpc3 j
          · intro hf0
            exfalso
            rw [show ({ s with count := 0, trainings := s.trainings + 1, pc := Function.update s.pc w 3 } : RSt n).flag = s.flag from rfl, hf] at hf0
            cases hf0
          · intro _
            refine ⟨?_, Or.inr ⟨?_, by show s.trainings + 1 = 1; omega⟩⟩
            · intro j
              by_cases hj : j = w
              · subst hj; simp [Function.update_same]
              · simpa [Function.update_noteq hj] using hall j
            · intro j hj
              by_cases hjw : j = w
              · subst hjw; simp [Function.update_same] at hj
              · exact hjw (huniq j (by simpa [Function.update_noteq hjw] using hj))
        · exact absurd h2 (hno i)
      · -- already returned: no state change
        have hs : step n s i = s := by
          unfold step; rw [if_neg h0, if_neg h1, if_neg h2]
        rw [hs]
        exact ⟨hpc3, hF, hT⟩

theorem inv_run (n : Nat) (sch : List (Fin n)) (s : RSt n) (h : Inv n s) :
    Inv n (run n sch s) := by
  induction sch generalizing s with
  | nil => exact h
  | cons a rest ih => exact ih _ (inv_step n s a h)

/-- Number of further scheduler slots call `i` still needs before it has
certainly returned. -/
def needed : Nat → Nat
  | 0 => 3
  | 1 => 2
  | 2 => 1
  | _ => 0

theorem needed_eq_zero : ∀ m : Nat, m ≠ 0 → m ≠ 1 → m ≠ 2 → needed m = 0
  | 0, h, _, _ => absurd rfl h
  | 1, _, h, _ => absurd rfl h
  | 2, _, _, h => absurd rfl h
  | _ + 3, _, _, _ => rfl

theorem needed_step_own (th : Nat) (s : RSt n) (i : Fin n) :
    needed ((step th s i).pc i) + 1 ≤ needed (s.pc i) ∨
      needed (s.pc i) = 0 ∧ (step th s i).pc i = s.pc i := by
  by_cases h0 : s.pc i = 0
  · left
    unfold step
    rw [if_pos h0, h0]
    simp [Function.update_same, needed]
  · by_cases h1 : s.pc i = 1
    · left
      unfold step
      rw [if_neg h0, if_pos h1, h1]
      by_cases hth : th ≤ s.obs i
      · rw [if_pos hth]
        by_cases hf : s.flag = true
        · rw [if_pos hf]; simp [Function.update_same, needed]
        · rw [if_neg hf]; simp [Function.update_same, needed]
      · rw [if_neg hth]; simp [Function.update_same, needed]
    · by_cases h2 : s.pc i = 2
      · left
        unfold step
        rw [if_neg h0, if_neg h1, if_pos h2, h2]
        simp [Function.update_same, needed]
      · right
        have hs : step th s i = s := by
          unfold step; rw [if_neg h0, if_neg h1, if_neg h2]
        constructor
        · exact needed_eq_zero (s.pc i) h0 h1 h2
        · rw [hs]

theorem run_pc_done (n : Nat) (sch : List (Fin n)) (s : RSt n)
    (h : ∀ i, needed (s.pc i) ≤ sch.count i) :
    ∀ i, needed ((run n sch s).pc i) = 0 := by
  induction sch generalizing s with
  | nil =>
    intro i
    have := h i
    simp only [List.count_nil] at this
    simpa [run] using Nat.le_zero.mp this
  | cons a rest ih =>
    intro i
    have hstep : run n (a :: rest) s = run n rest (step n s a) := rfl
    rw [hstep]
    refine ih (step n s a) ?_ i
    intro j
    have hc := h j
    by_cases hj : j = a
    · subst hj
      have hcc : (j :: rest).count j = rest.count j + 1 := by
        simp [List.count_cons]
      rcases needed_step_own n s j with hlt | ⟨hz, heq⟩
      · omega
      · rw [heq]; omega
    · have hpc : (step n s a).pc j = s.pc j := step_pc_other n s a j hj
      have hcc : (a :: rest).count j = rest.count j := by
        simp [List.count_cons, hj]
      rw [hpc]
      omega

theorem run_trainings_eq_one (n : Nat) (hn : 0 < n) (sch : List (Fin n))
    (h : ∀ i, 3 ≤ sch.count i) :
    (run n sch (rinit n)).trainings = 1 := by
  classical
  have hinv : Inv n (run n sch (rinit n)) := inv_run n sch _ (inv_init n)
  have hneed : ∀ i, needed ((run n sch (rinit n)).pc i) = 0 :=
    run_pc_done n sch (rinit n) (fun j => by simpa [rinit, needed] using h j)
  set t := run n sch (rinit n) with ht
  obtain ⟨hpc3, hF, hT⟩ := hinv
  have hdone : ∀ i, t.pc i = 3 := by
    intro i
    have h0 := hneed i
    have h3 := hpc3 i
    have hne : t.pc i ≠ 0 ∧ t.pc i ≠ 1 ∧ t.pc i ≠ 2 := by
      refine ⟨?_, ?_, ?_⟩ <;> intro hh <;> rw [hh] at h0 <;> simp [needed] at h0
    omega
  cases hfl : t.flag with
  | false =>
    exfalso
    obtain ⟨htr, hcnt, hno2, hobs, hinj, hdn⟩ := hF hfl
    have hall : ∀ i, 1 ≤ t.pc i := fun i => by rw [hdone i]; omega
    have hdnn : dones t = n := by
      unfold dones
      rw [Finset.filter_true_of_mem (fun i _ => hall i)]
      exact Finset.card_fin n
    have hobs' : ∀ i, 1 ≤ t.obs i ∧ t.obs i ≤ n := fun i => by
      have := hobs i (hall i)
      omega
    let g : Fin n → Fin n := fun i => ⟨t.obs i - 1, by have := hobs' i; omega⟩
    have hg : Function.Injective g := by
      intro a b hab
      by_contra hne
      refine hinj a b (hall a) (hall b) hne ?_
      have hv : t.obs a - 1 = t.obs b - 1 := congrArg Fin.val hab
      have h1 := (hobs' a).1
      have h2 := (hobs' b).1
      omega
    obtain ⟨i, hi⟩ := (Finite.injective_iff_surjective.mp hg) ⟨n - 1, by omega⟩
    have hv : t.obs i - 1 = n - 1 := congrArg Fin.val hi
    have h1 := (hobs' i).1
    have hlt := hdn i (hdone i)
    omega
  | true =>
    rcases (hT hfl).2 with ⟨⟨w, hw, _⟩, _⟩ | ⟨_, htr⟩
    · rw [hdone w] at hw; omega
    · exact htr

end CounterRace

/-- C5: for N = 10 concurrent `increment_counter` calls on a counter starting
at 0 with threshold 10, under every interleaving of their atomic steps in
which each call runs to completion (appears at least three times in the
schedule, one slot per atomic step), exactly one background training run is
started — never zero and never more than one — so two concurrent crossings
of the threshold never both trigger training. -/
theorem counter_race_exactly_one_training_c5 (sch : List (Fin 10))
    (h : ∀ i, 3 ≤ sch.count i) :
    (CounterRace.run 10 sch (CounterRace.rinit 10)).trainings = 1 :=
  CounterRace.run_trainings_eq_one 10 (by omega) sch h

theorem counter_race_exactly_one_training_c5_witness :
    (∀ i : Fin 10,
      3 ≤ (((List.finRange 10).flatMap fun j => [j, j, j]).count i)) ∧
    (CounterRace.run 10 ((List.finRange 10).flatMap fun j => [j, j, j])
      (CounterRace.rinit 10)).trainings = 1 :=
  ⟨by decide, counter_race_exactly_one_training_c5 _ (by decide)⟩

namespace Py

/-- Python `str.strip()` (no arguments): drop leading and trailing
whitespace. Implemented over the character list so that it reduces inside
the kernel. -/
def pyStrip (s : String) : String :=
  String.mk (((s.toList.dropWhile Char.isWhitespace).reverse.dropWhile
    Char.isWhitespace).reverse)

/-- Python `str.lower()`, over the character list. -/
def pyLower (s : String) : String :=
  String.mk (s.toList.map Char.toLower)

/-- Containment of one character list in another as a contiguous run. -/
def pyInChars (needle : List Char) : List Char → Bool
  | [] => needle.isEmpty
  | a :: rest => needle.isPrefixOf (a :: rest) || pyInChars needle rest

/-- Python `needle in haystack` substring containment on strings. -/
def pyIn (needle haystack : String) : Bool :=
  pyInChars needle.toList haystack.toList

end Py

namespace AuthorPrefs

/-- One element of a user's `sorted_authors` array
(`user_sorted_author_preferences.py`). Counts are integers because the
`$inc`-based `remove_author_preference` can drive them below zero. -/
structure AuthorEntry where
  authorName : String
  preferenceCount : Int
  booksLiked : List String
  booksDisliked : List String
  totalInteractions : Int
  deriving Repr, DecidableEq

/-- Comparison used by `sorted_authors.sort(key=lambda x: x["preference_count"],
reverse=True)`: `a` may precede `b` when its count is at least `b`'s. -/
def prefGE (a b : AuthorEntry) : Prop := b.preferenceCount ≤ a.preferenceCount

instance : DecidableRel prefGE := fun a b =>
  inferInstanceAs (Decidable (b.preferenceCount ≤ a.preferenceCount))

instance : IsTotal AuthorEntry prefGE :=
  ⟨fun a b => le_total b.preferenceCount a.preferenceCount⟩

instance : IsTrans AuthorEntry prefGE :=
  ⟨fun _ _ _ h1 h2 => le_trans h2 h1⟩

/-- Python's stable sort, descending by `preference_count`. Insertion sort
places an earlier element before later elements of equal count, matching
CPython's stable `list.sort` with `reverse=True`. -/
def pySortDesc (l : List AuthorEntry) : List AuthorEntry := l.insertionSort prefGE

/-- The `weights` dict of `update_author_preference`; unknown actions get
weight 0 (`weights.get(action, 0)`). -/
def weightOf (action : String) : Int :=
  if action = "like" then 1 else if action = "dislike" then -1 else 0

/-- In-place mutation of a found author entry inside the update loop:
clamp the count at 0, bump `total_interactions`, and append the book to the
relevant book list when absent. -/
def applyWeight (weight : Int) (bookName : String) (a : AuthorEntry) : AuthorEntry :=
  let a' : AuthorEntry :=
    { a with preferenceCount := max (a.preferenceCount + weight) 0,
             totalInteractions := a.totalInteractions + 1 }
  if 0 < weight then
    if bookName ∈ a'.booksLiked then a'
    else { a' with booksLiked := a'.booksLiked ++ [bookName] }
  else
    if bookName ∈ a'.booksDisliked then a'
    else { a' with booksDisliked := a'.booksDisliked ++ [bookName] }

/-- The `initial_author` dict created for a user with no document. -/
def initialAuthor (weight : Int) (authorName bookName : String) : AuthorEntry :=
  { authorName := authorName, preferenceCount := max weight 0,
    booksLiked := if 0 < weight then [bookName] else [],
    booksDisliked := if weight < 0 then [bookName] else [],
    totalInteractions := 1 }

/-- The `new_author` dict appended when the author is not in the list. -/
def newAuthor (weight : Int) (authorName bookName : String) : AuthorEntry :=
  { authorName := authorName, preferenceCount := weight,
    booksLiked := [bookName], booksDisliked := [], totalInteractions := 1 }

/-- The update loop of `update_author_preference`: walk `sorted_authors` to
the first entry matching the author name, update it in place, and `break`.
An updated entry whose clamped count reached 0 is popped at its position;
entries after the break point are untouched. Returns
`(author_found, popped, list_after_loop)`; when the entry was updated in
place without popping, the caller re-sorts the whole list. -/
def updateScan (weight : Int) (name bookName : String) :
    List AuthorEntry → Bool × Bool × List AuthorEntry
  | [] => (false, false, [])
  | a :: rest =>
    if a.authorName == name then
      let a' := applyWeight weight bookName a
      if a'.preferenceCount ≤ 0 then (true, true, rest)
      else (true, false, a' :: rest)
    else
      let r := updateScan weight name bookName rest
      (r.1, r.2.1, a :: r.2.2)

/-- `update_author_preference`, acting on the user's optional
`sorted_authors` document (`none` when the user has no document yet). -/
def updateAuthorPreference (doc : Option (List AuthorEntry))
    (authorName action bookName : String) : Option (List AuthorEntry) :=
  if Py.pyStrip authorName = "" then doc
  else
    let name := Py.pyStrip authorName
    let weight := weightOf action
    if weight = 0 then doc
    else
      match doc with
      | none =>
        some (if 0 < weight then [initialAuthor weight name bookName] else [])
      | some sortedAuthors =>
        let r := updateScan weight name bookName sortedAuthors
        if r.1 then some (if r.2.1 then r.2.2 else pySortDesc r.2.2)
        else
          if 0 < weight then
            some (pySortDesc (sortedAuthors ++ [newAuthor weight name bookName]))
          else some sortedAuthors

/-- `get_most_preferred_author`: the first element of the sorted array, if
any (the `$slice: 1` projection). -/
def getMostPreferredAuthor (doc : Option (List AuthorEntry)) : Option AuthorEntry :=
  match doc with
  | none => none
  | some l => l.head?

/-- Effect of `remove_author_preference`'s single `update_one` on one array
element: entries matching the author name get the book `$pull`ed from the
relevant book list, `preference_count` incremented by the undo weight
(−1 for a removed like, +1 for a removed dislike) and
`total_interactions` decremented; other entries are untouched. -/
def removeEntry (authorName action bookName : String) (a : AuthorEntry) :
    AuthorEntry :=
  if a.authorName = authorName then
    { a with
      booksLiked :=
        if action = "like" then a.booksLiked.filter (fun b => b ≠ bookName)
        else a.booksLiked,
      booksDisliked :=
        if action = "like" then a.booksDisliked
        else a.booksDisliked.filter (fun b => b ≠ bookName),
      preferenceCount := a.preferenceCount + (if action = "like" then -1 else 1),
      totalInteractions := a.totalInteractions - 1 }
  else a

/-- `remove_author_preference`: one `update_one` with `$pull` on the book
list and `$inc` on `preference_count` / `total_interactions`, applied to
every entry matching the author name; no entry is removed and the list is
not re-sorted. -/
def removeAuthorPreference (doc : Option (List AuthorEntry))
    (authorName action bookName : String) : Option (List AuthorEntry) :=
  match doc with
  | none => none
  | some l => some (l.map (removeEntry authorName action bookName))

/-- The author array is sorted descending by preference count. -/
def SortedDesc (l : List AuthorEntry) : Prop := l.Sorted prefGE

instance (l : List AuthorEntry) : Decidable (SortedDesc l) :=
  inferInstanceAs (Decidable (List.Pairwise prefGE l))

/-- The first element (if any) carries the maximal preference count. -/
def HeadIsMax : List AuthorEntry → Prop
  | [] => True
  | b :: rest => ∀ a ∈ b :: rest, a.preferenceCount ≤ b.preferenceCount

instance : ∀ l : List AuthorEntry, Decidable (HeadIsMax l)
  | [] => isTrue trivial
  | b :: rest =>
    inferInstanceAs (Decidable (∀ a ∈ b :: rest, a.preferenceCount ≤ b.preferenceCount))

/-- The invariant claimed by the specification for the per-user author
list: every stored entry has count at least 1, the list is sorted
descending, and the head is the most-preferred author. -/
def ClaimInv : Option (List AuthorEntry) → Prop
  | none => True
  | some l => (∀ a ∈ l, 1 ≤ a.preferenceCount) ∧ SortedDesc l ∧ HeadIsMax l

instance : ∀ d : Option (List AuthorEntry), Decidable (ClaimInv d)
  | none => isTrue trivial
  | some l =>
    inferInstanceAs
      (Decidable ((∀ a ∈ l, 1 ≤ a.preferenceCount) ∧ SortedDesc l ∧ HeadIsMax l))

theorem mem_pySortDesc {a : AuthorEntry} {l : List AuthorEntry} :
    a ∈ pySortDesc l ↔ a ∈ l :=
  (List.perm_insertionSort prefGE l).mem_iff

theorem sorted_pySortDesc (l : List AuthorEntry) : SortedDesc (pySortDesc l) :=
  List.sorted_insertionSort prefGE l

theorem headIsMax_of_sorted {l : List AuthorEntry} (h : SortedDesc l) :
    HeadIsMax l := by
  cases l with
  | nil => trivial
  | cons b rest =>
    intro a ha
    rcases List.mem_cons.mp ha with rfl | ha
    · exact le_refl _
    · exact List.rel_of_sorted_cons h a ha

theorem claimInv_some {l : List AuthorEntry}
    (hc : ∀ a ∈ l, 1 ≤ a.preferenceCount) (hs : SortedDesc l) :
    ClaimInv (some l) :=
  ⟨hc, hs, headIsMax_of_sorted hs⟩

theorem updateScan_sublist_of_popped (weight : Int) (name bookName : String)
    (l : List AuthorEntry) (hp : (updateScan weight name bookName l).2.1 = true) :
    (updateScan weight name bookName l).2.2.Sublist l := by
  induction l with
  | nil => simp [updateScan]
  | cons a rest ih =>
    unfold updateScan
    by_cases hm : (a.authorName == name) = true
    · rw [if_pos hm]
      dsimp only
      by_cases hz : (applyWeight weight bookName a).preferenceCount ≤ 0
      · rw [if_pos hz]
        exact (List.sublist_cons_self a rest)
      · rw [if_neg hz]
        unfold updateScan at hp
        rw [if_pos hm] at hp
        dsimp only at hp
        rw [if_neg hz] at hp
        cases hp
    · rw [if_neg hm]
      dsimp only
      unfold updateScan at hp
      rw [if_neg hm] at hp
      dsimp only at hp
      exact (ih hp).cons₂ a

theorem updateScan_counts (weight : Int) (name bookName : String)
    (l : List AuthorEntry) (hc : ∀ x ∈ l, 1 ≤ x.preferenceCount)
    (hp : (updateScan weight name bookName l).2.1 = false) :
    ∀ x ∈ (updateScan weight name bookName l).2.2, 1 ≤ x.preferenceCount := by
  induction l with
  | nil => simp [updateScan]
  | cons a rest ih =>
    unfold updateScan at hp ⊢
    by_cases hm : (a.authorName == name) = true
    · rw [if_pos hm] at hp ⊢
      dsimp only at hp ⊢
      by_cases hz : (applyWeight weight bookName a).preferenceCount ≤ 0
      · rw [if_pos hz] at hp
        cases hp
      · rw [if_neg hz] at hp ⊢
        intro x hx
        rcases List.mem_cons.mp hx with rfl | hx
        · omega
        · exact hc x (List.mem_cons_of_mem a hx)
    · rw [if_neg hm] at hp ⊢
      dsimp only at hp ⊢
      intro x hx
      rcases List.mem_cons.mp hx with rfl | hx
      · exact hc x (List.mem_cons_self x rest)
      · exact ih (fun y hy => hc y (List.mem_cons_of_mem a hy)) hp x hx

theorem updateScan_sorted_of_popped (weight : Int) (name bookName : String)
    (l : List AuthorEntry) (hs : SortedDesc l)
    (hp : (updateScan weight name bookName l).2.1 = true) :
    SortedDesc (updateScan weight name bookName l).2.2 :=
  hs.sublist (updateScan_sublist_of_popped weight name bookName l hp)

theorem claimInv_update (doc : Option (List AuthorEntry))
    (authorName action bookName : String) (h : ClaimInv doc) :
    ClaimInv (updateAuthorPreference doc authorName action bookName) := by
  unfold updateAuthorPreference
  by_cases htrim : Py.pyStrip authorName = ""
  · simpa [htrim] using h
  · rw [if_neg htrim]
    dsimp only
    by_cases hw : weightOf action = 0
    · simpa [hw] using h
    · rw [if_neg hw]
      cases doc with
      | none =>
        dsimp only
        by_cases hpos : 0 < weightOf action
        · rw [if_pos hpos]
          refine claimInv_some ?_ (List.sorted_singleton _)
          intro a ha
          rcases List.mem_singleton.mp ha with rfl
          simp only [initialAuthor]
          omega
        · rw [if_neg hpos]
          exact ⟨fun a ha => absurd ha (List.not_mem_nil a), List.sorted_nil, trivial⟩
      | some l =>
        obtain ⟨hc, hs, _⟩ := h
        dsimp only
        by_cases hfound :
            (updateScan (weightOf action) (Py.pyStrip authorName) bookName l).1 = true
        · rw [if_pos hfound]
          by_cases hpop :
              (updateScan (weightOf action) (Py.pyStrip authorName) bookName l).2.1 = true
          · rw [if_pos hpop]
            have hsub := updateScan_sublist_of_popped _ _ _ _ hpop
            exact claimInv_some (fun b hb => hc b (hsub.mem hb)) (hs.sublist hsub)
          · rw [if_neg hpop]
            refine claimInv_some ?_ (sorted_pySortDesc _)
            intro b hb
            exact updateScan_counts _ _ _ _ hc (Bool.not_eq_true _ ▸ hpop) b
              (mem_pySortDesc.mp hb)
        · rw [if_neg hfound]
          by_cases hpos : 0 < weightOf action
          · rw [if_pos hpos]
            refine claimInv_some ?_ (sorted_pySortDesc _)
            intro b hb
            rcases List.mem_append.mp (mem_pySortDesc.mp hb) with hb' | hb'
            · exact hc b hb'
            · rcases List.mem_singleton.mp hb' with rfl
              simp only [newAuthor]
              omega
          · rw [if_neg hpos]
            exact ⟨hc, hs, headIsMax_of_sorted hs⟩

/-- A sequence of `update_author_preference` calls, applied left to right. -/
def applyUpdates (doc : Option (List AuthorEntry)) :
    List (String × String × String) → Option (List AuthorEntry)
  | [] => doc
  | (a, act, b) :: rest => applyUpdates (updateAuthorPreference doc a act b) rest

end AuthorPrefs

namespace AuthorPrefs

theorem claimInv_applyUpdates (doc : Option (List AuthorEntry))
    (ops : List (String × String × String)) (h : ClaimInv doc) :
    ClaimInv (applyUpdates doc ops) := by
  induction ops generalizing doc with
  | nil => exact h
  | cons op rest ih =>
    obtain ⟨a, act, b⟩ := op
    exact ih _ (claimInv_update doc a act b h)

end AuthorPrefs

/-- C3 (counterexample): the claimed invariant does not survive
`remove_author_preference`. A user likes one book by author "a" (count 1);
removing that like with `remove_author_preference` decrements the count by
a bare `$inc` to 0 but leaves the entry in the list, so a stored entry with
`net_preference_count < 1` remains. -/
theorem author_invariant_c3_counterexample :
    ¬ AuthorPrefs.ClaimInv
      (AuthorPrefs.removeAuthorPreference
        (AuthorPrefs.updateAuthorPreference none "a" "like" "b") "a" "like" "b") := by
  decide

/-- C3 (amended): after any sequence of `update_author_preference`
operations alone, starting from any state satisfying it, the
AuthorPreference invariant holds — every stored entry has
`net_preference_count ≥ 1` (an entry reaching 0 is popped), the list is
sorted descending by count, and the head is the most-preferred author.
`remove_author_preference` does not preserve the invariant: it decrements
counts in place without popping zero-count entries or re-sorting. -/
theorem author_invariant_update_only_c3 (doc : Option (List AuthorPrefs.AuthorEntry))
    (ops : List (String × String × String)) (h : AuthorPrefs.ClaimInv doc) :
    AuthorPrefs.ClaimInv (AuthorPrefs.applyUpdates doc ops) :=
  AuthorPrefs.claimInv_applyUpdates doc ops h

theorem author_invariant_update_only_c3_witness :
    AuthorPrefs.ClaimInv (none : Option (List AuthorPrefs.AuthorEntry)) ∧
    AuthorPrefs.ClaimInv (AuthorPrefs.applyUpdates none
      [("a", "like", "b1"), ("c", "like", "b2"), ("a", "dislike", "b1")]) :=
  ⟨trivial, author_invariant_update_only_c3 none
    [("a", "like", "b1"), ("c", "like", "b2"), ("a", "dislike", "b1")] trivial⟩

namespace Interactions

/-- A `book_genres` argument as received over JSON
(`user_book_interaction._parse_genres` accepts a list, a string, or
anything else). -/
inductive GenresIn where
  | list (l : List String)
  | str (s : String)
  | other
  deriving Repr, DecidableEq

/-- Python `s.split(",")` over the character list. -/
def splitCommas : List Char → List (List Char)
  | [] => [[]]
  | c :: rest =>
    let r := splitCommas rest
    if c = ',' then [] :: r
    else
      match r with
      | [] => [[c]]
      | h :: t => (c :: h) :: t

/-- `_parse_genres` of `user_book_interaction.py`: strip each genre and
drop the empty ones; a string is first split on commas. -/
def parseGenres : GenresIn → List String
  | .list l => (l.map Py.pyStrip).filter (fun g => g ≠ "")
  | .str s =>
    (((splitCommas s.toList).map (fun cs => Py.pyStrip (String.mk cs))).filter
      (fun g => g ≠ ""))
  | .other => []

/-- One document of `user_book_interactions` for the (fixed) user. -/
structure InteractionRec where
  bookName : String
  bookAuthor : String
  action : String
  genres : List String
  deriving Repr, DecidableEq

/-- The per-user state touched by `like_book` / `dislike_book`: the user's
interactions, liked/disliked genre counters, the sorted author-preference
document, the global interaction counter, and the user's language list. -/
structure UState where
  interactions : List InteractionRec
  likedGenres : List (String × Int)
  dislikedGenres : List (String × Int)
  authorPrefs : Option (List AuthorPrefs.AuthorEntry)
  counter : InteractionCounter.St
  languages : List String
  deriving Repr, DecidableEq

/-- Update the first matching element of a list (MongoDB `update_one`). -/
def updateFirst (p : α → Bool) (f : α → α) : List α → List α
  | [] => []
  | a :: rest => if p a then f a :: rest else a :: updateFirst p f rest

/-- Delete the first matching element of a list (MongoDB `delete_one`). -/
def removeFirst (p : α → Bool) : List α → List α
  | [] => []
  | a :: rest => if p a then rest else a :: removeFirst p rest

/-- `find_one` on the user's interactions by book name. -/
def findInteraction (st : UState) (bookName : String) : Option InteractionRec :=
  st.interactions.find? (fun r => r.bookName == bookName)

/-- The `update_one` that overwrites an existing interaction's action and
genre snapshot. -/
def setInteraction (st : UState) (bookName action : String)
    (genres : List String) : UState :=
  let upd := updateFirst (fun r => r.bookName == bookName)
    (fun r => { r with action := action, genres := genres }) st.interactions
  { st with interactions := upd }

/-- `insert_one` of a new interaction document. -/
def insertInteraction (st : UState) (r : InteractionRec) : UState :=
  { st with interactions := st.interactions ++ [r] }

/-- One step of `_add_genre_preferences`: `$inc` an existing per-genre
count or insert it with count 1. -/
def addGenre (prefs : List (String × Int)) (g : String) : List (String × Int) :=
  if (prefs.find? (fun p => p.1 == g)).isSome then
    updateFirst (fun p => p.1 == g) (fun p => (p.1, p.2 + 1)) prefs
  else prefs ++ [(g, 1)]

/-- `_add_genre_preferences` over a genre list, skipping empty genres. -/
def addGenrePrefs (prefs : List (String × Int)) (genres : List String) :
    List (String × Int) :=
  genres.foldl (fun acc g => if g = "" then acc else addGenre acc g) prefs

/-- One step of `_remove_genre_preferences`: delete the per-genre document
when its count would drop to 0, else decrement it. -/
def removeGenre (prefs : List (String × Int)) (g : String) : List (String × Int) :=
  match prefs.find? (fun p => p.1 == g) with
  | none => prefs
  | some p =>
    if p.2 ≤ 1 then removeFirst (fun q => q.1 == g) prefs
    else updateFirst (fun q => q.1 == g) (fun q => (q.1, q.2 - 1)) prefs

/-- `_remove_genre_preferences` over a genre list, skipping empty genres. -/
def removeGenrePrefs (prefs : List (String × Int)) (genres : List String) :
    List (String × Int) :=
  genres.foldl (fun acc g => if g = "" then acc else removeGenre acc g) prefs

/-- `_update_user_language`: look the book's language up in the catalog
and `$addToSet` its lowercase form into the user's language list. -/
def updateUserLanguage (bookLanguage : String → Option String) (st : UState)
    (bookName : String) : UState :=
  match bookLanguage bookName with
  | none => st
  | some lang =>
    if lang = "" then st
    else
      { st with languages :=
          if Py.pyLower lang ∈ st.languages then st.languages
          else st.languages ++ [Py.pyLower lang] }

/-- `_increment_interaction_counter` via the sequential counter model. -/
def incrCounter (st : UState) : UState :=
  { st with counter := (InteractionCounter.incrementCounter st.counter).2 }

/-- `_update_author_affinity`: delegate to `update_author_preference` (the
before/after top-author comparison only drives cache invalidation). -/
def updateAuthorAffinity (st : UState) (author action book : String) : UState :=
  { st with authorPrefs :=
      AuthorPrefs.updateAuthorPreference st.authorPrefs author action book }

/-- `remove_author_preferences`: delegate to `remove_author_preference`. -/
def removeAuthorPrefsSt (st : UState) (author action book : String) : UState :=
  { st with authorPrefs :=
      AuthorPrefs.removeAuthorPreference st.authorPrefs author action book }

/-- Python `s[0]` on a string: the first character as a 1-character string,
or an `IndexError` (`none`) on the empty string. -/
def pyFirstChar (s : String) : Option String :=
  match s.toList with
  | [] => none
  | c :: _ => some (String.mk [c])

/-- `like_book`: overwrite or create the user's interaction, undo a prior
dislike's genre/author contributions, apply the like to the author
affinity store, and bump the global counter. Returns the method's boolean
result with the final state. -/
def likeBook (bookLanguage : String → Option String) (st : UState)
    (bookName bookAuthor : String) (bookGenres : GenresIn) : Bool × UState :=
  let genresList := parseGenres bookGenres
  let st := updateUserLanguage bookLanguage st bookName
  match findInteraction st bookName with
  | some existing =>
    if existing.action = "like" then (true, st)
    else
      let st := setInteraction st bookName "like" genresList
      let st :=
        if existing.action = "dislike" then
          removeAuthorPrefsSt
            { st with dislikedGenres := removeGenrePrefs st.dislikedGenres genresList }
            bookAuthor "dislike" bookName
        else st
      let st := updateAuthorAffinity st bookAuthor "like" bookName
      (true, incrCounter st)
  | none =>
    let st := insertInteraction st
      { bookName := bookName, bookAuthor := bookAuthor, action := "like",
        genres := genresList }
    let st := { st with likedGenres := addGenrePrefs st.likedGenres genresList }
    let st := updateAuthorAffinity st bookAuthor "like" bookName
    (true, incrCounter st)

/-- `dislike_book`: as `like_book` with the roles swapped — except that the
author passed to the affinity update (and stored on a fresh insert) is
`book_author[0]`, the first character of the author string; on an empty
author string the `IndexError` is caught and the method returns `False`
with the mutations made so far. -/
def dislikeBook (bookLanguage : String → Option String) (st : UState)
    (bookName bookAuthor : String) (bookGenres : GenresIn) : Bool × UState :=
  let genresList := parseGenres bookGenres
  let st := updateUserLanguage bookLanguage st bookName
  match findInteraction st bookName with
  | some existing =>
    if existing.action = "dislike" then (true, st)
    else
      let st := setInteraction st bookName "dislike" genresList
      let st :=
        if existing.action = "like" then
          removeAuthorPrefsSt
            { st with likedGenres := removeGenrePrefs st.likedGenres genresList }
            bookAuthor "like" bookName
        else st
      match pyFirstChar bookAuthor with
      | none => (false, st)
      | some c =>
        let st := updateAuthorAffinity st c "dislike" bookName
        (true, incrCounter st)
  | none =>
    match pyFirstChar bookAuthor with
    | none => (false, st)
    | some c =>
      let st := insertInteraction st
        { bookName := bookName, bookAuthor := c, action := "dislike",
          genres := genresList }
      let st := { st with dislikedGenres := addGenrePrefs st.dislikedGenres genresList }
      let st := updateAuthorAffinity st c "dislike" bookName
      (true, incrCounter st)

/-- The author's net preference count as stored: the summed
`preference_count` over entries bearing the author's name (0 when absent). -/
def netCount (doc : Option (List AuthorPrefs.AuthorEntry)) (author : String) : Int :=
  match doc with
  | none => 0
  | some l => ((l.filter fun a => a.authorName == author).map
      (fun a => a.preferenceCount)).sum

/-- Number of stored entries bearing the author's name. -/
def namesCount (doc : Option (List AuthorPrefs.AuthorEntry)) (author : String) : Nat :=
  match doc with
  | none => 0
  | some l => (l.filter fun a => a.authorName == author).length

end Interactions

namespace Interactions

theorem updateUserLanguage_eq (e : String → Option String) (st : UState) (b : String) :
    ∃ ls, updateUserLanguage e st b = { st with languages := ls } := by
  unfold updateUserLanguage
  cases e b with
  | none => exact ⟨st.languages, rfl⟩
  | some lang =>
    dsimp only
    by_cases h : lang = ""
    · rw [if_pos h]
      exact ⟨st.languages, rfl⟩
    · rw [if_neg h]
      exact ⟨_, rfl⟩

/-- The stored interaction of the single-like state below. -/
def likedOnceRec : InteractionRec :=
  { bookName := "A", bookAuthor := "X", action := "like", genres := ["Fantasy"] }

/-- A state with a single existing like of book "A" by author "X". -/
def likedOnceState : UState :=
  let e0 : AuthorPrefs.AuthorEntry :=
    { authorName := "X", preferenceCount := 1, booksLiked := ["A"],
      booksDisliked := [], totalInteractions := 1 }
  { interactions := [likedOnceRec], likedGenres := [("Fantasy", 1)],
    dislikedGenres := [], authorPrefs := some [e0],
    counter := InteractionCounter.initSt, languages := [] }

end Interactions

/-- C10: recording the same action twice for the same (user, book) pair is
a no-op: when the stored interaction for the book already has the same
action, `like_book` (resp. `dislike_book`) returns True and leaves the
interaction record, both genre preference stores, the author preference
list, and the global interaction counter unchanged. -/
theorem repeat_action_noop_c10
    (e : String → Option String) (st : Interactions.UState)
    (bookName bookAuthor : String) (g : Interactions.GenresIn)
    (r : Interactions.InteractionRec)
    (hfind : Interactions.findInteraction st bookName = some r) :
    (r.action = "like" →
      (Interactions.likeBook e st bookName bookAuthor g).1 = true ∧
      (Interactions.likeBook e st bookName bookAuthor g).2.interactions = st.interactions ∧
      (Interactions.likeBook e st bookName bookAuthor g).2.likedGenres = st.likedGenres ∧
      (Interactions.likeBook e st bookName bookAuthor g).2.dislikedGenres = st.dislikedGenres ∧
      (Interactions.likeBook e st bookName bookAuthor g).2.authorPrefs = st.authorPrefs ∧
      (Interactions.likeBook e st bookName bookAuthor g).2.counter = st.counter) ∧
    (r.action = "dislike" →
      (Interactions.dislikeBook e st bookName bookAuthor g).1 = true ∧
      (Interactions.dislikeBook e st bookName bookAuthor g).2.interactions = st.interactions ∧
      (Interactions.dislikeBook e st bookName bookAuthor g).2.likedGenres = st.likedGenres ∧
      (Interactions.dislikeBook e st bookName bookAuthor g).2.dislikedGenres = st.dislikedGenres ∧
      (Interactions.dislikeBook e st bookName bookAuthor g).2.authorPrefs = st.authorPrefs ∧
      (Interactions.dislikeBook e st bookName bookAuthor g).2.counter = st.counter) := by
  obtain ⟨ls, hls⟩ := Interactions.updateUserLanguage_eq e st bookName
  have hf2 : Interactions.findInteraction { st with languages := ls } bookName = some r :=
    hfind
  constructor
  · intro ha
    unfold Interactions.likeBook
    dsimp only
    rw [hls, hf2]
    dsimp only
    rw [if_pos ha]
    exact ⟨rfl, rfl, rfl, rfl, rfl, rfl⟩
  · intro ha
    unfold Interactions.dislikeBook
    dsimp only
    rw [hls, hf2]
    dsimp only
    rw [if_pos ha]
    exact ⟨rfl, rfl, rfl, rfl, rfl, rfl⟩

theorem repeat_action_noop_c10_witness :
    Interactions.findInteraction Interactions.likedOnceState "A" =
      some Interactions.likedOnceRec ∧
    ((Interactions.likeBook (fun _ => none) Interactions.likedOnceState
        "A" "X" (Interactions.GenresIn.str "Fantasy")).1 = true ∧
      (Interactions.likeBook (fun _ => none) Interactions.likedOnceState
        "A" "X" (Interactions.GenresIn.str "Fantasy")).2.interactions =
        Interactions.likedOnceState.interactions ∧
      (Interactions.likeBook (fun _ => none) Interactions.likedOnceState
        "A" "X" (Interactions.GenresIn.str "Fantasy")).2.likedGenres =
        Interactions.likedOnceState.likedGenres ∧
      (Interactions.likeBook (fun _ => none) Interactions.likedOnceState
        "A" "X" (Interactions.GenresIn.str "Fantasy")).2.dislikedGenres =
        Interactions.likedOnceState.dislikedGenres ∧
      (Interactions.likeBook (fun _ => none) Interactions.likedOnceState
        "A" "X" (Interactions.GenresIn.str "Fantasy")).2.authorPrefs =
        Interactions.likedOnceState.authorPrefs ∧
      (Interactions.likeBook (fun _ => none) Interactions.likedOnceState
        "A" "X" (Interactions.GenresIn.str "Fantasy")).2.counter =
        Interactions.likedOnceState.counter) :=
  ⟨by decide, (repeat_action_noop_c10 (fun _ => none) Interactions.likedOnceState
    "A" "X" (Interactions.GenresIn.str "Fantasy") Interactions.likedOnceRec
    (by decide)).1 rfl⟩

namespace Interactions

/-- Net count over a plain list of entries. -/
def netCountL (l : List AuthorPrefs.AuthorEntry) (t : String) : Int :=
  ((l.filter fun a => a.authorName == t).map (fun a => a.preferenceCount)).sum

/-- Name multiplicity over a plain list of entries. -/
def namesCountL (l : List AuthorPrefs.AuthorEntry) (t : String) : Nat :=
  (l.filter fun a => a.authorName == t).length

theorem netCountL_perm {l l' : List AuthorPrefs.AuthorEntry} (h : l.Perm l')
    (t : String) : netCountL l t = netCountL l' t :=
  ((h.filter _).map _).sum_eq

theorem namesCountL_perm {l l' : List AuthorPrefs.AuthorEntry} (h : l.Perm l')
    (t : String) : namesCountL l t = namesCountL l' t :=
  (h.filter _).length_eq

theorem netCountL_sort (l : List AuthorPrefs.AuthorEntry) (t : String) :
    netCountL (AuthorPrefs.pySortDesc l) t = netCountL l t :=
  netCountL_perm (List.perm_insertionSort _ l) t

theorem namesCountL_sort (l : List AuthorPrefs.AuthorEntry) (t : String) :
    namesCountL (AuthorPrefs.pySortDesc l) t = namesCountL l t :=
  namesCountL_perm (List.perm_insertionSort _ l) t

theorem netCountL_append (l l' : List AuthorPrefs.AuthorEntry) (t : String) :
    netCountL (l ++ l') t = netCountL l t + netCountL l' t := by
  unfold netCountL
  rw [List.filter_append, List.map_append, List.sum_append]

theorem applyWeight_authorName (w : Int) (b : String)
    (a : AuthorPrefs.AuthorEntry) :
    (AuthorPrefs.applyWeight w b a).authorName = a.authorName := by
  unfold AuthorPrefs.applyWeight
  dsimp only
  split <;> split <;> rfl

theorem applyWeight_count (w : Int) (b : String) (a : AuthorPrefs.AuthorEntry) :
    (AuthorPrefs.applyWeight w b a).preferenceCount =
      max (a.preferenceCount + w) 0 := by
  unfold AuthorPrefs.applyWeight
  dsimp only
  split <;> split <;> rfl

theorem updateScan_other (w : Int) (n b t : String) (hnt : n ≠ t)
    (l : List AuthorPrefs.AuthorEntry) :
    netCountL (AuthorPrefs.updateScan w n b l).2.2 t = netCountL l t := by
  induction l with
  | nil => rfl
  | cons a rest ih =>
    unfold AuthorPrefs.updateScan
    by_cases hm : (a.authorName == n) = true
    · have hname : a.authorName = n := by simpa using hm
      have hat : (a.authorName == t) = false := by
        simp [hname, hnt]
      rw [if_pos hm]
      dsimp only
      by_cases hz : (AuthorPrefs.applyWeight w b a).preferenceCount ≤ 0
      · rw [if_pos hz]
        unfold netCountL
        simp [List.filter_cons, hat]
      · rw [if_neg hz]
        have hat' : ((AuthorPrefs.applyWeight w b a).authorName == t) = false := by
          rw [applyWeight_authorName]
          exact hat
        unfold netCountL
        simp [List.filter_cons, hat, hat']
    · rw [if_neg hm]
      dsimp only
      unfold netCountL at ih ⊢
      by_cases hat : (a.authorName == t) = true
      · simp only [List.filter_cons, hat, if_pos, List.map_cons, List.sum_cons]
        omega
      · simp only [List.filter_cons, hat]
        exact ih

theorem updateScan_self (n b : String) (l : List AuthorPrefs.AuthorEntry)
    (hnn : ∀ a ∈ l, 0 ≤ a.preferenceCount) :
    ((AuthorPrefs.updateScan 1 n b l).1 = true →
      (AuthorPrefs.updateScan 1 n b l).2.1 = false ∧
      netCountL (AuthorPrefs.updateScan 1 n b l).2.2 n = netCountL l n + 1 ∧
      namesCountL (AuthorPrefs.updateScan 1 n b l).2.2 n = namesCountL l n ∧
      1 ≤ namesCountL l n) ∧
    ((AuthorPrefs.updateScan 1 n b l).1 = false →
      (AuthorPrefs.updateScan 1 n b l).2.2 = l ∧ namesCountL l n = 0) := by
  induction l with
  | nil =>
    constructor
    · intro h
      simp [AuthorPrefs.updateScan] at h
    · intro _
      exact ⟨rfl, rfl⟩
  | cons a rest ih =>
    have hc0 : 0 ≤ a.preferenceCount := hnn a (List.mem_cons_self a rest)
    have hrest : ∀ x ∈ rest, 0 ≤ x.preferenceCount :=
      fun x hx => hnn x (List.mem_cons_of_mem a hx)
    unfold AuthorPrefs.updateScan
    by_cases hm : (a.authorName == n) = true
    · rw [if_pos hm]
      dsimp only
      have hcnt : (AuthorPrefs.applyWeight 1 b a).preferenceCount =
          a.preferenceCount + 1 := by
        rw [applyWeight_count]
        omega
      have hz : ¬ (AuthorPrefs.applyWeight 1 b a).preferenceCount ≤ 0 := by
        rw [hcnt]; omega
      rw [if_neg hz]
      constructor
      · intro _
        refine ⟨rfl, ?_, ?_, ?_⟩
        · have hat' : ((AuthorPrefs.applyWeight 1 b a).authorName == n) = true := by
            rw [applyWeight_authorName]; exact hm
          unfold netCountL
          simp only [List.filter_cons, hat', hm, if_pos, List.map_cons,
            List.sum_cons, hcnt]
          omega
        · have hat' : ((AuthorPrefs.applyWeight 1 b a).authorName == n) = true := by
            rw [applyWeight_authorName]; exact hm
          unfold namesCountL
          simp [List.filter_cons, hat', hm]
        · unfold namesCountL
          simp [List.filter_cons, hm]
      · intro h
        cases h
    · rw [if_neg hm]
      dsimp only
      have hns : namesCountL (a :: rest) n = namesCountL rest n := by
        unfold namesCountL
        simp [List.filter_cons, hm]
      have hnc : netCountL (a :: rest) n = netCountL rest n := by
        unfold netCountL
        simp [List.filter_cons, hm]
      constructor
      · intro hf
        obtain ⟨hp, hnet, hnames, hge⟩ := (ih hrest).1 hf
        refine ⟨hp, ?_, ?_, ?_⟩
        · have hcons : netCountL (a :: (AuthorPrefs.updateScan 1 n b rest).2.2) n
              = netCountL (AuthorPrefs.updateScan 1 n b rest).2.2 n := by
            unfold netCountL
            simp [List.filter_cons, hm]
          rw [hcons, hnet, hnc]
        · have hcons : namesCountL (a :: (AuthorPrefs.updateScan 1 n b rest).2.2) n
              = namesCountL (AuthorPrefs.updateScan 1 n b rest).2.2 n := by
            unfold namesCountL
            simp [List.filter_cons, hm]
          rw [hcons, hnames, hns]
        · rw [hns]
          exact hge
      · intro hf
        obtain ⟨heq, hze⟩ := (ih hrest).2 hf
        exact ⟨by rw [heq], by rw [hns]; exact hze⟩

end Interactions

namespace Interactions

theorem netCount_some (l : List AuthorPrefs.AuthorEntry) (t : String) :
    netCount (some l) t = netCountL l t := rfl

theorem namesCount_some (l : List AuthorPrefs.AuthorEntry) (t : String) :
    namesCount (some l) t = namesCountL l t := rfl

theorem namesCountL_append (l l' : List AuthorPrefs.AuthorEntry) (t : String) :
    namesCountL (l ++ l') t = namesCountL l t + namesCountL l' t := by
  unfold namesCountL
  rw [List.filter_append, List.length_append]

theorem netCountL_eq_zero_of_names {l : List AuthorPrefs.AuthorEntry} {t : String}
    (h : namesCountL l t = 0) : netCountL l t = 0 := by
  unfold namesCountL at h
  unfold netCountL
  rw [List.length_eq_zero.mp h]
  rfl

theorem netCount_update_other (doc : Option (List AuthorPrefs.AuthorEntry))
    (n act b t : String) (hnt : Py.pyStrip n ≠ t) :
    netCount (AuthorPrefs.updateAuthorPreference doc n act b) t = netCount doc t := by
  unfold AuthorPrefs.updateAuthorPreference
  by_cases hs : Py.pyStrip n = ""
  · rw [if_pos hs]
  · rw [if_neg hs]
    dsimp only
    by_cases hw : AuthorPrefs.weightOf act = 0
    · rw [if_pos hw]
    · rw [if_neg hw]
      cases doc with
      | none =>
        dsimp only
        by_cases hp : 0 < AuthorPrefs.weightOf act
        · rw [if_pos hp]
          rw [netCount_some]
          unfold netCountL
          have hname : ((AuthorPrefs.initialAuthor (AuthorPrefs.weightOf act)
              (Py.pyStrip n) b).authorName == t) = false := by
            simp [AuthorPrefs.initialAuthor, hnt]
          simp [List.filter_cons, hname, netCount]
        · rw [if_neg hp]
          rw [netCount_some]
          rfl
      | some l =>
        dsimp only
        by_cases hf : (AuthorPrefs.updateScan (AuthorPrefs.weightOf act)
            (Py.pyStrip n) b l).1 = true
        · rw [if_pos hf]
          by_cases hpop : (AuthorPrefs.updateScan (AuthorPrefs.weightOf act)
              (Py.pyStrip n) b l).2.1 = true
          · rw [if_pos hpop, netCount_some, netCount_some]
            exact updateScan_other _ _ _ _ hnt l
          · rw [if_neg hpop, netCount_some, netCount_some, netCountL_sort]
            exact updateScan_other _ _ _ _ hnt l
        · rw [if_neg hf]
          by_cases hp : 0 < AuthorPrefs.weightOf act
          · rw [if_pos hp, netCount_some, netCount_some, netCountL_sort,
              netCountL_append]
            have hz : netCountL [AuthorPrefs.newAuthor (AuthorPrefs.weightOf act)
                (Py.pyStrip n) b] t = 0 := by
              unfold netCountL
              have hname : ((AuthorPrefs.newAuthor (AuthorPrefs.weightOf act)
                  (Py.pyStrip n) b).authorName == t) = false := by
                simp [AuthorPrefs.newAuthor, hnt]
              simp [List.filter_cons, hname]
            rw [hz]
            omega
          · rw [if_neg hp]

theorem netCount_update_like (doc : Option (List AuthorPrefs.AuthorEntry))
    (t b : String) (hst : Py.pyStrip t = t) (hne : t ≠ "")
    (hnn : ∀ l, doc = some l → ∀ x ∈ l, 0 ≤ x.preferenceCount) :
    netCount (AuthorPrefs.updateAuthorPreference doc t "like" b) t
      = netCount doc t + 1 ∧
    (namesCount doc t ≤ 1 →
      namesCount (AuthorPrefs.updateAuthorPreference doc t "like" b) t = 1) := by
  unfold AuthorPrefs.updateAuthorPreference
  rw [hst, if_neg hne]
  dsimp only
  rw [show AuthorPrefs.weightOf "like" = 1 from rfl]
  rw [if_neg (by decide : ¬ (1 : Int) = 0)]
  cases doc with
  | none =>
    dsimp only
    rw [if_pos (by decide : (0 : Int) < 1)]
    constructor
    · rw [netCount_some]
      unfold netCountL
      have hname : ((AuthorPrefs.initialAuthor 1 t b).authorName == t) = true := by
        simp [AuthorPrefs.initialAuthor]
      simp [List.filter_cons, hname, AuthorPrefs.initialAuthor, netCount]
    · intro _
      rw [namesCount_some]
      unfold namesCountL
      have hname : ((AuthorPrefs.initialAuthor 1 t b).authorName == t) = true := by
        simp [AuthorPrefs.initialAuthor]
      simp [List.filter_cons, hname]
  | some l =>
    dsimp only
    have hsc := updateScan_self t b l (hnn l rfl)
    by_cases hf : (AuthorPrefs.updateScan 1 t b l).1 = true
    · rw [if_pos hf]
      obtain ⟨hp, hnet, hnames, hge⟩ := hsc.1 hf
      rw [hp]
      rw [if_neg (by decide : ¬ false = true)]
      constructor
      · rw [netCount_some, netCount_some, netCountL_sort]
        exact hnet
      · intro hle
        rw [namesCount_some] at hle ⊢
        rw [namesCountL_sort, hnames]
        omega
    · rw [if_neg hf]
      obtain ⟨heq, hz⟩ := hsc.2 (by simpa using hf)
      rw [if_pos (by decide : (0 : Int) < 1)]
      have hzn : netCountL l t = 0 := netCountL_eq_zero_of_names hz
      have hone : netCountL [AuthorPrefs.newAuthor 1 t b] t = 1 := by
        unfold netCountL
        have hname : ((AuthorPrefs.newAuthor 1 t b).authorName == t) = true := by
          simp [AuthorPrefs.newAuthor]
        simp [List.filter_cons, hname, AuthorPrefs.newAuthor]
      constructor
      · rw [netCount_some, netCount_some, netCountL_sort, netCountL_append, hzn,
          hone]
      · intro _
        rw [namesCount_some, namesCountL_sort, namesCountL_append, hz]
        unfold namesCountL
        have hname : ((AuthorPrefs.newAuthor 1 t b).authorName == t) = true := by
          simp [AuthorPrefs.newAuthor]
        simp [List.filter_cons, hname]

theorem netCountL_map_sub (t : String) (w : Int)
    (f : AuthorPrefs.AuthorEntry → AuthorPrefs.AuthorEntry)
    (hname : ∀ a, (f a).authorName = a.authorName)
    (hcnt : ∀ a, a.authorName = t →
      (f a).preferenceCount = a.preferenceCount + w)
    (hid : ∀ a, a.authorName ≠ t → f a = a) :
    ∀ l, netCountL (l.map f) t = netCountL l t + w * namesCountL l t := by
  intro l
  induction l with
  | nil => simp [netCountL, namesCountL]
  | cons a rest ih =>
    rw [List.map_cons]
    by_cases hm : a.authorName = t
    · have hb1 : (a.authorName == t) = true := by simp [hm]
      have hb2 : ((f a).authorName == t) = true := by simp [hname, hm]
      unfold netCountL namesCountL at ih ⊢
      simp only [List.filter_cons, hb1, hb2, if_pos, List.map_cons,
        List.sum_cons, List.length_cons]
      rw [hcnt a hm]
      push_cast
      rw [ih]
      ring
    · have hb1 : (a.authorName == t) = false := by simp [hm]
      rw [hid a hm]
      unfold netCountL namesCountL at ih ⊢
      simp only [List.filter_cons, hb1]
      exact ih

theorem removeEntry_authorName (n act b : String) (a : AuthorPrefs.AuthorEntry) :
    (AuthorPrefs.removeEntry n act b a).authorName = a.authorName := by
  unfold AuthorPrefs.removeEntry
  split <;> rfl

theorem removeEntry_count_like (t b : String) (a : AuthorPrefs.AuthorEntry)
    (h : a.authorName = t) :
    (AuthorPrefs.removeEntry t "like" b a).preferenceCount =
      a.preferenceCount + (-1) := by
  unfold AuthorPrefs.removeEntry
  rw [if_pos h]
  dsimp only
  rw [if_pos rfl]

theorem removeEntry_id (n act b : String) (a : AuthorPrefs.AuthorEntry)
    (h : a.authorName ≠ n) : AuthorPrefs.removeEntry n act b a = a := by
  unfold AuthorPrefs.removeEntry
  rw [if_neg h]

theorem netCount_remove_like (doc : Option (List AuthorPrefs.AuthorEntry))
    (t b : String) :
    netCount (AuthorPrefs.removeAuthorPreference doc t "like" b) t =
      netCount doc t - namesCount doc t := by
  cases doc with
  | none => rfl
  | some l =>
    show netCountL (l.map (AuthorPrefs.removeEntry t "like" b)) t
      = netCountL l t - (namesCountL l t : Int)
    rw [netCountL_map_sub t (-1) (AuthorPrefs.removeEntry t "like" b)
      (removeEntry_authorName t "like" b)
      (fun a ha => removeEntry_count_like t b a ha)
      (fun a ha => removeEntry_id t "like" b a ha) l]
    ring

end Interactions

namespace Interactions

/-- A user state with no history at all. -/
def emptyState : UState :=
  { interactions := [], likedGenres := [], dislikedGenres := [],
    authorPrefs := none, counter := InteractionCounter.initSt, languages := [] }

theorem find?_append_none {α : Type} {p : α → Bool} {l : List α}
    (h : l.find? p = none) (x : α) (hx : p x = true) :
    (l ++ [x]).find? p = some x := by
  induction l with
  | nil => simp [List.find?, hx]
  | cons a rest ih =>
    by_cases hpa : p a = true
    · rw [List.find?_cons_of_pos _ hpa] at h
      cases h
    · rw [List.find?_cons_of_neg _ (by simpa using hpa)] at h
      rw [List.cons_append, List.find?_cons_of_neg _ (by simpa using hpa)]
      exact ih h

theorem likeBook_fresh (e : String → Option String) (st : UState)
    (bn a : String) (g : GenresIn) (h : findInteraction st bn = none) :
    (likeBook e st bn a g).1 = true ∧
    (likeBook e st bn a g).2.interactions = st.interactions ++
      [{ bookName := bn, bookAuthor := a, action := "like",
         genres := parseGenres g }] ∧
    (likeBook e st bn a g).2.authorPrefs =
      AuthorPrefs.updateAuthorPreference st.authorPrefs a "like" bn := by
  obtain ⟨ls, hls⟩ := updateUserLanguage_eq e st bn
  have h2 : findInteraction { st with languages := ls } bn = none := h
  unfold likeBook
  dsimp only
  rw [hls, h2]
  exact ⟨rfl, rfl, rfl⟩

theorem dislikeBook_on_like (e : String → Option String) (st : UState)
    (bn a : String) (g : GenresIn) (r : InteractionRec)
    (hf : findInteraction st bn = some r) (ha : r.action = "like")
    (c : String) (hc : pyFirstChar a = some c) :
    (dislikeBook e st bn a g).2.authorPrefs =
      AuthorPrefs.updateAuthorPreference
        (AuthorPrefs.removeAuthorPreference st.authorPrefs a "like" bn)
        c "dislike" bn := by
  obtain ⟨ls, hls⟩ := updateUserLanguage_eq e st bn
  have h2 : findInteraction { st with languages := ls } bn = some r := hf
  unfold dislikeBook
  dsimp only
  rw [hls, h2]
  dsimp only
  rw [if_neg (by simp [ha])]
  rw [if_pos ha, hc]
  rfl

theorem length_dropWhile_le' {α : Type} (p : α → Bool) (l : List α) :
    (l.dropWhile p).length ≤ l.length := by
  induction l with
  | nil => exact Nat.le_refl _
  | cons a rest ih =>
    rw [List.dropWhile_cons]
    split
    · exact Nat.le_succ_of_le ih
    · exact Nat.le_refl _

theorem pyStrip_length_le (s : String) :
    (Py.pyStrip s).toList.length ≤ s.toList.length := by
  show ((((s.toList.dropWhile Char.isWhitespace).reverse.dropWhile
    Char.isWhitespace).reverse)).length ≤ s.toList.length
  rw [List.length_reverse]
  calc ((s.toList.dropWhile Char.isWhitespace).reverse.dropWhile
      Char.isWhitespace).length
      ≤ (s.toList.dropWhile Char.isWhitespace).reverse.length :=
        length_dropWhile_le' _ _
    _ = (s.toList.dropWhile Char.isWhitespace).length := List.length_reverse _
    _ ≤ s.toList.length := length_dropWhile_le' _ _

end Interactions

/-- C8 (counterexample): the claim's general law fails. The author is the
one-character string "X" and the user already likes another book "B2" by
"X", so the pre-like net count is 1. Liking then disliking book "A" ends
with the author entry removed (net count 0, not 1): the dislike path both
reverses the like and applies a dislike decrement to `book_author[0]`,
which for a one-character author is the same author. -/
theorem like_then_dislike_c8_counterexample :
    Interactions.netCount
      ((Interactions.likeBook (fun _ => none) Interactions.emptyState "B2" "X"
        Interactions.GenresIn.other).2.authorPrefs) "X" = 1 ∧
    Interactions.netCount
      ((Interactions.dislikeBook (fun _ => none)
        (Interactions.likeBook (fun _ => none)
          (Interactions.likeBook (fun _ => none) Interactions.emptyState "B2" "X"
            Interactions.GenresIn.other).2 "A" "X"
          Interactions.GenresIn.other).2
        "A" "X" Interactions.GenresIn.other).2.authorPrefs) "X" = 0 := by
  constructor
  · decide
  · decide

/-- C8 (amended): concretely, a user with no history who likes book "A" by
author "X" has `get_most_preferred_author` return author "X" with
preference count 1, and after disliking "A" (overwriting the like) it
returns None, the entry having been removed. In general, liking then
disliking the same fresh book returns the author's stored net preference
count to exactly its pre-like value provided the author's name has at
least two characters (the dislike's affinity decrement is applied to the
one-character string `book_author[0]`, which then cannot name this
author), is already stripped, has at most one stored entry, and all stored
counts are nonnegative. -/
theorem like_then_dislike_roundtrip_c8 :
    ((AuthorPrefs.getMostPreferredAuthor
        ((Interactions.likeBook (fun _ => none) Interactions.emptyState
          "A" "X" (Interactions.GenresIn.str "Fantasy")).2.authorPrefs)).map
      (fun en => (en.authorName, en.preferenceCount)) = some ("X", 1)) ∧
    (AuthorPrefs.getMostPreferredAuthor
        ((Interactions.dislikeBook (fun _ => none)
          (Interactions.likeBook (fun _ => none) Interactions.emptyState
            "A" "X" (Interactions.GenresIn.str "Fantasy")).2
          "A" "X" (Interactions.GenresIn.str "Fantasy")).2.authorPrefs) = none) ∧
    ∀ (e : String → Option String) (st : Interactions.UState)
      (bn a : String) (g : Interactions.GenresIn),
      2 ≤ a.toList.length → Py.pyStrip a = a →
      Interactions.findInteraction st bn = none →
      (∀ l, st.authorPrefs = some l →
        (∀ x ∈ l, 0 ≤ x.preferenceCount) ∧ Interactions.namesCountL l a ≤ 1) →
      Interactions.netCount
        ((Interactions.dislikeBook e
          (Interactions.likeBook e st bn a g).2 bn a g).2.authorPrefs) a =
        Interactions.netCount st.authorPrefs a := by
  refine ⟨by decide, by decide, ?_⟩
  intro e st bn a g hlen hstrip hfresh hdoc
  obtain ⟨hltrue, hint, hap⟩ := Interactions.likeBook_fresh e st bn a g hfresh
  have hrecfind : Interactions.findInteraction (Interactions.likeBook e st bn a g).2 bn
      = some { bookName := bn, bookAuthor := a, action := "like",
               genres := Interactions.parseGenres g } := by
    show (Interactions.likeBook e st bn a g).2.interactions.find?
      (fun r => r.bookName == bn) = _
    rw [hint]
    exact Interactions.find?_append_none hfresh _ (by simp)
  obtain ⟨ch, chrest, hchars⟩ : ∃ ch chrest, a.toList = ch :: chrest := by
    cases hto : a.toList with
    | nil => rw [hto] at hlen; simp at hlen
    | cons ch chrest => exact ⟨ch, chrest, rfl⟩
  have hpfc : Interactions.pyFirstChar a = some (String.mk [ch]) := by
    unfold Interactions.pyFirstChar
    rw [hchars]
  have hap2 := Interactions.dislikeBook_on_like e (Interactions.likeBook e st bn a g).2
    bn a g _ hrecfind rfl _ hpfc
  rw [hap2, hap]
  have hca : Py.pyStrip (String.mk [ch]) ≠ a := by
    intro hh
    have hlen1 : (Py.pyStrip (String.mk [ch])).toList.length ≤ 1 := by
      have := Interactions.pyStrip_length_le (String.mk [ch])
      simpa using this
    rw [hh, hchars] at hlen1
    rw [hchars] at hlen
    simp at hlen1
    rw [hlen1] at hlen
    simp at hlen
  rw [Interactions.netCount_update_other _ _ _ _ _ hca]
  rw [Interactions.netCount_remove_like]
  have hne : a ≠ "" := by
    intro hh
    rw [hh] at hchars
    cases hchars
  obtain ⟨hplus, hones⟩ := Interactions.netCount_update_like st.authorPrefs a bn
    hstrip hne (fun l hl => (hdoc l hl).1)
  have hone' : Interactions.namesCount st.authorPrefs a ≤ 1 := by
    cases hdp : st.authorPrefs with
    | none => exact Nat.zero_le 1
    | some l =>
      rw [Interactions.namesCount_some]
      exact (hdoc l hdp).2
  rw [hplus, hones hone']
  omega

theorem like_then_dislike_roundtrip_c8_witness :
    (2 ≤ ("Rowling" : String).toList.length ∧
      Py.pyStrip "Rowling" = "Rowling" ∧
      Interactions.findInteraction Interactions.emptyState "A" = none ∧
      (∀ l, Interactions.emptyState.authorPrefs = some l →
        (∀ x ∈ l, 0 ≤ x.preferenceCount) ∧
        Interactions.namesCountL l "Rowling" ≤ 1)) ∧
    Interactions.netCount
      ((Interactions.dislikeBook (fun _ => none)
        (Interactions.likeBook (fun _ => none) Interactions.emptyState
          "A" "Rowling" Interactions.GenresIn.other).2 "A" "Rowling"
        Interactions.GenresIn.other).2.authorPrefs) "Rowling" =
      Interactions.netCount Interactions.emptyState.authorPrefs "Rowling" :=
  ⟨⟨by decide, by decide, by decide, fun l hl => by cases hl⟩,
    like_then_dislike_roundtrip_c8.2.2 (fun _ => none) Interactions.emptyState
      "A" "Rowling" Interactions.GenresIn.other (by decide) (by decide)
      (by decide) (fun l hl => by cases hl)⟩

namespace Ubcf

/-- A formatted book record as returned by `_format_book_info`
(`recommendation_engine.py`): name, joined author/genre strings, rating
data, language and the popularity proxy (default 0). -/
structure BookInfo where
  name : String
  author : String
  genres : String
  starRating : Option ℚ
  numRatings : Int
  languageOfBook : Option String
  popularityScore : Int
  deriving Repr, DecidableEq

abbrev UserId := Nat

/-- External state read by `get_enhanced_ubcf_recommendations`: the cache
entry, whether the user is in the trained `user_mapping`, the user's
interaction count and the external retrain outcome (for
`_retrain_for_new_user`), the `user_similarities` document, each similar
user's liked-book names (`get_user_interactions(..., action="like",
limit=100)`, most recent first), the catalog lookup `_get_book_info`, the
target's interacted book names, and the target's stored languages. -/
structure Env where
  cached : Option (List BookInfo)
  userInMapping : Bool
  userInteractionCount : Nat
  retrainOk : Bool
  similarEntry : Option (List UserId × List ℚ)
  likedBooksOf : UserId → List String
  bookInfo : String → Option BookInfo
  interacted : List String
  userLanguages : List String

/-- The similarity floor 0.5 of the cascade, as an exact rational. -/
def simFloor : ℚ := Rat.mk' 1 2

/-- The `language_mappings` synonym table of `_languages_match`. -/
def languageMappings : List (String × List String) :=
  [("english", ["en", "eng", "en-us", "en-gb", "english"]),
   ("spanish", ["es", "esp", "español", "castellano", "es-es", "es-mx", "spanish"]),
   ("french", ["fr", "français", "francais", "fr-fr", "french"]),
   ("german", ["de", "deutsch", "german", "de-de"]),
   ("italian", ["it", "italiano", "it-it", "italian"]),
   ("portuguese", ["pt", "português", "portugues", "pt-br", "pt-pt", "portuguese"]),
   ("chinese", ["zh", "chinese", "mandarin", "zh-cn", "zh-tw"]),
   ("japanese", ["ja", "japanese", "jp", "ja-jp"]),
   ("korean", ["ko", "korean", "kr", "ko-kr"]),
   ("russian", ["ru", "russian", "русский", "ru-ru"]),
   ("arabic", ["ar", "arabic", "العربية", "ar-sa", "عربي", "عربية"]),
   ("hindi", ["hi", "hindi", "हिन्दी", "hi-in"])]

/-- `_languages_match`: exact match, then substring containment either way,
then the synonym table. -/
def languagesMatch (bookLanguage userLanguage : String) : Bool :=
  let b := Py.pyStrip (Py.pyLower bookLanguage)
  let u := Py.pyStrip (Py.pyLower userLanguage)
  if b = u then true
  else if Py.pyIn u b || Py.pyIn b u then true
  else
    languageMappings.any fun m =>
      (u == m.1 && m.2.contains b) || (b == m.1 && m.2.contains u) ||
      (m.2.contains u && m.2.contains b)

/-- `_meets_language_requirement`: no filtering when the user has no
language preferences or the record lacks a language; otherwise match the
lowercased book language against any user language. -/
def meetsLanguageRequirement (info : BookInfo) (userLanguages : List String) :
    Bool :=
  if userLanguages.isEmpty then true
  else
    match info.languageOfBook with
    | none => true
    | some l =>
      if l = "" then true
      else
        let bl := Py.pyStrip (Py.pyLower l)
        userLanguages.any fun ul => languagesMatch bl ul

/-- The per-similar-user candidate loop: walk the liked interactions in
order, skipping books the target already interacted with, duplicates
within this user (the `book_info_map` check), and books whose catalog
record is missing. -/
def buildLiked (binfo : String → Option BookInfo) (interacted : List String) :
    List String → List String → List (String × BookInfo)
  | [], _ => []
  | name :: rest, seen =>
    if name ∈ interacted then buildLiked binfo interacted rest seen
    else if name ∈ seen then buildLiked binfo interacted rest seen
    else
      match binfo name with
      | some info => (name, info) :: buildLiked binfo interacted rest (name :: seen)
      | none => buildLiked binfo interacted rest seen

/-- Comparison for `liked_books.sort(key=..., reverse=True)` on the
popularity proxy. -/
def popGE (x y : String × BookInfo) : Prop :=
  y.2.popularityScore ≤ x.2.popularityScore

instance : DecidableRel popGE := fun x y =>
  inferInstanceAs (Decidable (y.2.popularityScore ≤ x.2.popularityScore))

instance : IsTotal (String × BookInfo) popGE :=
  ⟨fun x y => le_total y.2.popularityScore x.2.popularityScore⟩

instance : IsTrans (String × BookInfo) popGE :=
  ⟨fun _ _ _ h1 h2 => le_trans h2 h1⟩

/-- Python's stable descending sort by popularity score. -/
def pySortPopDesc (l : List (String × BookInfo)) : List (String × BookInfo) :=
  l.insertionSort popGE

/-- The inner append loop: stop at the quota, skip books already in the
result (by formatted name) and books failing the language check. -/
def addBooks (userLangs : List String) (numRec : Nat) :
    List BookInfo → List (String × BookInfo) → List BookInfo
  | recs, [] => recs
  | recs, (name, info) :: rest =>
    if numRec ≤ recs.length then recs
    else if recs.any (fun rc => rc.name == name) then
      addBooks userLangs numRec recs rest
    else if meetsLanguageRequirement info userLangs = false then
      addBooks userLangs numRec recs rest
    else addBooks userLangs numRec (recs ++ [info]) rest

/-- Processing of one similar user: collect their surviving liked books,
sort by popularity, and append. -/
def addFromUser (liked : UserId → List String)
    (binfo : String → Option BookInfo) (numRec : Nat) (userLangs : List String)
    (interacted : List String) (recs : List BookInfo) (uid : UserId) :
    List BookInfo :=
  addBooks userLangs numRec recs
    (pySortPopDesc (buildLiked binfo interacted (liked uid) []))

/-- The outer loop over similar users in stored (similarity-descending)
order, stopping once the quota is reached. -/
def processUsers (liked : UserId → List String)
    (binfo : String → Option BookInfo) (numRec : Nat) (userLangs : List String)
    (interacted : List String) :
    List BookInfo → List UserId → List BookInfo
  | recs, [] => recs
  | recs, uid :: rest =>
    if numRec ≤ recs.length then recs
    else processUsers liked binfo numRec userLangs interacted
      (addFromUser liked binfo numRec userLangs interacted recs uid) rest

/-- `get_enhanced_ubcf_recommendations`. Returns the recommendation list
together with a flag recording whether the external cold-start retraining
subprocess was run (`_retrain_for_new_user` reaching `subprocess.run`). -/
def getEnhancedUbcf (env : Env) (numRecommendations : Nat) :
    List BookInfo × Bool :=
  let cachedList := env.cached.getD []
  if cachedList.isEmpty = false then (cachedList.take numRecommendations, false)
  else
    let retrainRun := !env.userInMapping && (env.userInteractionCount != 0)
    if !env.userInMapping && !((env.userInteractionCount != 0) && env.retrainOk)
    then ([], retrainRun)
    else
      match env.similarEntry with
      | none => ([], retrainRun)
      | some entry =>
        let sortedUserIds := ((entry.1.zip entry.2).filter
          (fun p => !(p.2.blt simFloor))).map Prod.fst
        let userLangs := env.userLanguages.map (fun s => Py.pyStrip (Py.pyLower s))
        let recs := processUsers env.likedBooksOf env.bookInfo numRecommendations
          userLangs env.interacted [] sortedUserIds
        (recs.take numRecommendations, retrainRun)

end Ubcf

namespace Ubcf

theorem filter_idem {α : Type} (p : α → Bool) (l : List α) :
    (l.filter p).filter p = l.filter p := by
  induction l with
  | nil => rfl
  | cons a rest ih =>
    by_cases hp : p a = true
    · simp [List.filter_cons, hp, ih]
    · simp [List.filter_cons, hp, ih]

theorem buildLiked_mem (binfo : String → Option BookInfo)
    (interacted : List String) (names seen : List String)
    (nm : String) (info : BookInfo)
    (h : (nm, info) ∈ buildLiked binfo interacted names seen) :
    nm ∉ interacted ∧ binfo nm = some info := by
  induction names generalizing seen with
  | nil => cases h
  | cons name rest ih =>
    unfold buildLiked at h
    by_cases h1 : name ∈ interacted
    · rw [if_pos h1] at h
      exact ih seen h
    · rw [if_neg h1] at h
      by_cases h2 : name ∈ seen
      · rw [if_pos h2] at h
        exact ih seen h
      · rw [if_neg h2] at h
        cases hb : binfo name with
        | some info' =>
          rw [hb] at h
          rcases List.mem_cons.mp h with heq | h'
          · have e1 : nm = name := congrArg Prod.fst heq
            have e2 : info = info' := congrArg Prod.snd heq
            rw [e1, e2]
            exact ⟨h1, hb⟩
          · exact ih _ h'
        | none =>
          rw [hb] at h
          exact ih seen h

theorem addBooks_mem (userLangs : List String) (numRec : Nat)
    (recs : List BookInfo) (items : List (String × BookInfo)) (b : BookInfo)
    (h : b ∈ addBooks userLangs numRec recs items) :
    b ∈ recs ∨ (∃ nm, (nm, b) ∈ items ∧
      meetsLanguageRequirement b userLangs = true) := by
  induction items generalizing recs with
  | nil => exact Or.inl h
  | cons item rest ih =>
    obtain ⟨name, info⟩ := item
    unfold addBooks at h
    by_cases h1 : numRec ≤ recs.length
    · rw [if_pos h1] at h
      exact Or.inl h
    · rw [if_neg h1] at h
      by_cases h2 : recs.any (fun rc => rc.name == name) = true
      · rw [if_pos h2] at h
        rcases ih recs h with hin | ⟨nm, hmem, hml⟩
        · exact Or.inl hin
        · exact Or.inr ⟨nm, List.mem_cons_of_mem _ hmem, hml⟩
      · rw [if_neg h2] at h
        by_cases h3 : meetsLanguageRequirement info userLangs = false
        · rw [if_pos h3] at h
          rcases ih recs h with hin | ⟨nm, hmem, hml⟩
          · exact Or.inl hin
          · exact Or.inr ⟨nm, List.mem_cons_of_mem _ hmem, hml⟩
        · rw [if_neg h3] at h
          rcases ih (recs ++ [info]) h with hin | ⟨nm, hmem, hml⟩
          · rcases List.mem_append.mp hin with hin' | hin'
            · exact Or.inl hin'
            · rcases List.mem_singleton.mp hin' with rfl
              refine Or.inr ⟨name, List.mem_cons_self _ _, ?_⟩
              revert h3
              cases meetsLanguageRequirement b userLangs <;> simp
          · exact Or.inr ⟨nm, List.mem_cons_of_mem _ hmem, hml⟩

theorem processUsers_mem (liked : UserId → List String)
    (binfo : String → Option BookInfo) (numRec : Nat)
    (userLangs : List String) (interacted : List String)
    (recs : List BookInfo) (uids : List UserId) (b : BookInfo)
    (h : b ∈ processUsers liked binfo numRec userLangs interacted recs uids) :
    b ∈ recs ∨ (∃ uid nm, (nm, b) ∈ buildLiked binfo interacted (liked uid) [] ∧
      meetsLanguageRequirement b userLangs = true) := by
  induction uids generalizing recs with
  | nil => exact Or.inl h
  | cons uid rest ih =>
    unfold processUsers at h
    by_cases h1 : numRec ≤ recs.length
    · rw [if_pos h1] at h
      exact Or.inl h
    · rw [if_neg h1] at h
      rcases ih _ h with hin | hp
      · rcases addBooks_mem _ _ _ _ _ hin with hin' | ⟨nm, hmem, hml⟩
        · exact Or.inl hin'
        · have hmem' : (nm, b) ∈ buildLiked binfo interacted (liked uid) [] :=
            (List.Perm.mem_iff (List.perm_insertionSort popGE _)).mp hmem
          exact Or.inr ⟨uid, nm, hmem', hml⟩
      · exact Or.inr hp

end Ubcf

namespace Ubcf

/-- Catalog records for the specification's cascade scenario. -/
def infoB : BookInfo := ⟨"B", "a1", "", none, 0, none, 0⟩

def infoC : BookInfo := ⟨"C", "a1", "", none, 0, none, 0⟩

def infoD : BookInfo := ⟨"D", "a2", "", none, 0, none, 0⟩

/-- The specification's cascade scenario: similar users U1 = 1 (similarity
0.9, likes B and C) and U2 = 2 (similarity 0.6, likes D); the target has
already seen C, is in the trained mapping, and has no language filter. -/
def scenarioEnv : Env :=
  { cached := none, userInMapping := true, userInteractionCount := 5,
    retrainOk := true,
    similarEntry := some ([1, 2], [Rat.mk' 9 10, Rat.mk' 3 5]),
    likedBooksOf := fun u =>
      if u = 1 then ["B", "C"] else if u = 2 then ["D"] else [],
    bookInfo := fun nm =>
      if nm = "B" then some infoB else if nm = "C" then some infoC
      else if nm = "D" then some infoD else none,
    interacted := ["C"],
    userLanguages := [] }

end Ubcf

/-- C1: the enhanced cascade recommender (i) on the specification's
scenario — similar users U1 (similarity 0.9, likes B and C) and U2
(similarity 0.6, likes D), target wanting 3 and having already seen C —
returns exactly [B, D] in that order, stopping because candidates are
exhausted; (ii) is unchanged when the precomputed similar-user list is
pre-restricted to entries with similarity at least 0.5 (so entries below
the floor are discarded); (iii) never returns more than the desired count;
and (iv) on a cache miss, when catalog records carry their own lookup
name, every returned book is neither one the target already interacted
with nor one failing the language-membership check. -/
theorem enhanced_ubcf_cascade_c1 :
    (Ubcf.getEnhancedUbcf Ubcf.scenarioEnv 3 = ([Ubcf.infoB, Ubcf.infoD], false)) ∧
    (∀ (env : Ubcf.Env) (n : Nat) (uids : List Ubcf.UserId) (scores : List ℚ),
      env.similarEntry = some (uids, scores) →
      Ubcf.getEnhancedUbcf
        { env with similarEntry := some (((uids.zip scores).filter
            (fun p => !(p.2.blt Ubcf.simFloor))).unzip) } n =
        Ubcf.getEnhancedUbcf env n) ∧
    (∀ (env : Ubcf.Env) (n : Nat), (Ubcf.getEnhancedUbcf env n).1.length ≤ n) ∧
    (∀ (env : Ubcf.Env) (n : Nat), env.cached = none →
      (∀ nm info, env.bookInfo nm = some info → info.name = nm) →
      ∀ b ∈ (Ubcf.getEnhancedUbcf env n).1,
        b.name ∉ env.interacted ∧
        Ubcf.meetsLanguageRequirement b
          (env.userLanguages.map (fun s => Py.pyStrip (Py.pyLower s))) = true) := by
  refine ⟨by decide, ?_, ?_, ?_⟩
  · intro env n uids scores h
    have hzip : ((((uids.zip scores).filter (fun p => !(p.2.blt Ubcf.simFloor))).unzip.1).zip
        (((uids.zip scores).filter (fun p => !(p.2.blt Ubcf.simFloor))).unzip.2)).filter
          (fun p => !(p.2.blt Ubcf.simFloor)) =
        (uids.zip scores).filter (fun p => !(p.2.blt Ubcf.simFloor)) := by
      rw [List.zip_unzip]
      exact Ubcf.filter_idem _ _
    unfold Ubcf.getEnhancedUbcf
    dsimp only
    rw [h]
    dsimp only
    rw [hzip]
  · intro env n
    unfold Ubcf.getEnhancedUbcf
    dsimp only
    split
    · simp [List.length_take]
    · split
      · simp
      · cases env.similarEntry with
        | none => simp
        | some entry => simp [List.length_take]
  · intro env n hc hnames b hb
    unfold Ubcf.getEnhancedUbcf at hb
    rw [hc] at hb
    dsimp only at hb
    rw [if_neg (by simp)] at hb
    split at hb
    · simp at hb
    · revert hb
      cases env.similarEntry with
      | none => intro hb; simp at hb
      | some entry =>
        intro hb
        dsimp only at hb
        have hb' := List.mem_of_mem_take hb
        rcases Ubcf.processUsers_mem _ _ _ _ _ _ _ _ hb' with hin | ⟨uid, nm, hmem, hml⟩
        · cases hin
        · obtain ⟨hnint, hbi⟩ := Ubcf.buildLiked_mem _ _ _ _ _ _ hmem
          have hname := hnames nm b hbi
          rw [hname]
          exact ⟨hnint, hml⟩

namespace Ubcf

theorem scenarioEnv_names :
    ∀ nm info, scenarioEnv.bookInfo nm = some info → info.name = nm := by
  intro nm info h
  unfold scenarioEnv at h
  dsimp only at h
  by_cases h1 : nm = "B"
  · rw [if_pos h1] at h
    injection h with e
    rw [← e, h1]
    rfl
  · rw [if_neg h1] at h
    by_cases h2 : nm = "C"
    · rw [if_pos h2] at h
      injection h with e
      rw [← e, h2]
      rfl
    · rw [if_neg h2] at h
      by_cases h3 : nm = "D"
      · rw [if_pos h3] at h
        injection h with e
        rw [← e, h3]
        rfl
      · rw [if_neg h3] at h
        cases h

end Ubcf

theorem enhanced_ubcf_cascade_c1_witness :
    (Ubcf.scenarioEnv.cached = none ∧
      Ubcf.infoB ∈ (Ubcf.getEnhancedUbcf Ubcf.scenarioEnv 3).1) ∧
    (Ubcf.infoB.name ∉ Ubcf.scenarioEnv.interacted ∧
      Ubcf.meetsLanguageRequirement Ubcf.infoB
        (Ubcf.scenarioEnv.userLanguages.map
          (fun s => Py.pyStrip (Py.pyLower s))) = true) :=
  ⟨⟨rfl, by decide⟩,
    enhanced_ubcf_cascade_c1.2.2.2 Ubcf.scenarioEnv 3 rfl Ubcf.scenarioEnv_names
      Ubcf.infoB (by decide)⟩

namespace Ubcf

/-- A target user with zero interactions who is absent from the trained
user mapping (no cache, no similarity entry). -/
def coldEnvA : Env :=
  { cached := none, userInMapping := false, userInteractionCount := 0,
    retrainOk := true, similarEntry := none, likedBooksOf := fun _ => [],
    bookInfo := fun _ => none, interacted := [], userLanguages := [] }

/-- A target user present in the trained mapping but with no similarity
entry. -/
def coldEnvB : Env :=
  { cached := none, userInMapping := true, userInteractionCount := 7,
    retrainOk := true, similarEntry := none, likedBooksOf := fun _ => [],
    bookInfo := fun _ => none, interacted := [], userLanguages := [] }

theorem retrainFlag_eq (env : Env) (n : Nat) (hc : env.cached = none) :
    (getEnhancedUbcf env n).2 =
      (!env.userInMapping && (env.userInteractionCount != 0)) := by
  unfold getEnhancedUbcf
  rw [hc]
  rw [if_neg (by simp)]
  dsimp only
  split
  · rfl
  · cases env.similarEntry with
    | none => rfl
    | some entry => rfl

end Ubcf

/-- C9 (counterexample): no cold-start retrain is attempted in either of
the claim's two situations. A target with zero interactions who is absent
from the trained mapping gets an empty result while
`_retrain_for_new_user` returns False before ever running the external
training script (the flag in the second component records whether the
subprocess ran); a target in the mapping with no similarity entry gets an
empty result with no retrain attempted at all. -/
theorem cold_start_retrain_c9_counterexample :
    Ubcf.getEnhancedUbcf Ubcf.coldEnvA 10 = ([], false) ∧
    Ubcf.getEnhancedUbcf Ubcf.coldEnvB 10 = ([], false) := by
  constructor
  · decide
  · decide

/-- C9 (amended): on a cache miss, the external cold-start retraining run
is attempted exactly when the target user is absent from the trained user
mapping and has at least one interaction. When the user has zero
interactions and is absent from the mapping, the engine returns an empty
result without running the external retrain; likewise a user present in
the mapping whose similarity entry is missing gets an empty result with
no retrain. -/
theorem cold_start_retrain_c9 (env : Ubcf.Env) (n : Nat)
    (hc : env.cached = none) :
    ((Ubcf.getEnhancedUbcf env n).2 = true ↔
      env.userInMapping = false ∧ env.userInteractionCount ≠ 0) ∧
    (env.userInMapping = false → env.userInteractionCount = 0 →
      Ubcf.getEnhancedUbcf env n = ([], false)) ∧
    (env.userInMapping = true → env.similarEntry = none →
      Ubcf.getEnhancedUbcf env n = ([], false)) := by
  refine ⟨?_, ?_, ?_⟩
  · rw [Ubcf.retrainFlag_eq env n hc]
    cases hm : env.userInMapping <;>
      simp [bne_iff_ne]
  · intro hm hcount
    simp [Ubcf.getEnhancedUbcf, hc, hm, hcount]
  · intro hm hse
    simp [Ubcf.getEnhancedUbcf, hc, hm, hse]

theorem cold_start_retrain_c9_witness :
    Ubcf.coldEnvA.cached = none ∧
    Ubcf.coldEnvA.userInMapping = false ∧
    Ubcf.coldEnvA.userInteractionCount = 0 ∧
    Ubcf.getEnhancedUbcf Ubcf.coldEnvA 10 = ([], false) :=
  ⟨rfl, rfl, rfl, (cold_start_retrain_c9 Ubcf.coldEnvA 10 rfl).2.1 rfl rfl⟩

namespace ContentTraining

/-- The persisted artifacts of the content-based model
(`ContentBasedRecommender.py`): the joblib-dumped fitted transformers
(`models/*.joblib`, one slot), the three global metadata arrays
(`book_ids.npy`, `book_names.npy`, `book_langs.npy`), and one FAISS index
file (with its aligned id array) per language. Artifact contents are
opaque (`Art`). -/
structure Store (Art : Type) where
  transformers : Option Art
  bookIdsFile : Option Art
  bookNamesFile : Option Art
  bookLangsFile : Option Art
  indexFiles : List (String × Art)
  deriving Repr, DecidableEq

/-- Write (upsert) one per-language index file. -/
def writeIndex (lang : String) (art : Art) (files : List (String × Art)) :
    List (String × Art) :=
  if (files.find? (fun p => p.1 == lang)).isSome then
    Interactions.updateFirst (fun p => p.1 == lang) (fun _ => (lang, art)) files
  else files ++ [(lang, art)]

/-- Data produced by the stream phase: the accumulated global arrays and
the per-language index artifacts to be built in the finalize phase. -/
structure StreamData (Art : Type) where
  idsArt : Art
  namesArt : Art
  langsArt : Art
  langs : List (String × Art)

/-- `_should_retrain`: retrain iff any metadata file, any fitted
transformer file, or every FAISS index file is missing. -/
def shouldRetrain (st : Store Art) : Bool :=
  st.bookIdsFile.isNone || st.bookNamesFile.isNone || st.bookLangsFile.isNone ||
  st.transformers.isNone || st.indexFiles.isEmpty

/-- PHASE 1, `_fit_transformers_on_sample`: when sampling and fitting
succeed (`fitResult = some t`), `_save_fitted_transformers` persists the
fitted transformers immediately, before any streaming; when the phase
fails (empty sample or exception) nothing has been written. -/
def fitTransformersOnSample (fitResult : Option Art) (st : Store Art) :
    Bool × Store Art :=
  match fitResult with
  | none => (false, st)
  | some t => (true, { st with transformers := some t })

/-- PHASES 2–3, `_stream_process_all_books` and `_finalize_faiss_indices`:
chunk processing writes nothing (`streamResult = none` models a failing
chunk); the finalize phase first saves the three global metadata arrays,
then builds and writes each language index in turn. `finalizeFailAt =
some k` models an exception while building language `k`, after `k` index
files were already written; on full success the saved model is reloaded
(`loadOk` is `load_model`'s result). -/
def streamAndFinalize (streamResult : Option (StreamData Art))
    (finalizeFailAt : Option Nat) (loadOk : Bool) (st : Store Art) :
    Bool × Store Art :=
  match streamResult with
  | none => (false, st)
  | some d =>
    let st' := { st with bookIdsFile := some d.idsArt,
                         bookNamesFile := some d.namesArt,
                         bookLangsFile := some d.langsArt }
    match finalizeFailAt with
    | some k =>
      let files := (d.langs.take k).foldl
        (fun acc p => writeIndex p.1 p.2 acc) st'.indexFiles
      (false, { st' with indexFiles := files })
    | none =>
      let files := d.langs.foldl
        (fun acc p => writeIndex p.1 p.2 acc) st'.indexFiles
      (loadOk, { st' with indexFiles := files })

/-- `train_model`: reuse the existing artifacts when nothing forces a
retrain and the catalog is nonempty; otherwise run fit, then stream and
finalize. -/
def trainModel (totalBooks : Nat) (fitResult : Option Art)
    (streamResult : Option (StreamData Art)) (finalizeFailAt : Option Nat)
    (loadOk : Bool) (st : Store Art) : Bool × Store Art :=
  if shouldRetrain st = false then (loadOk, st)
  else if totalBooks = 0 then (false, st)
  else
    match fitTransformersOnSample fitResult st with
    | (false, st') => (false, st')
    | (true, st') => streamAndFinalize streamResult finalizeFailAt loadOk st'

/-- A store holding a previous training run's artifacts, except that the
index files are gone (forcing a retrain). -/
def staleStore : Store Nat :=
  { transformers := some 0, bookIdsFile := some 0, bookNamesFile := some 0,
    bookLangsFile := some 0, indexFiles := [] }

end ContentTraining

/-- C4 (counterexample): a failed streaming run does not leave previously
persisted artifacts untouched. Forcing a retrain on a store holding old
fitted transformers (artifact 0), fitting succeeds with new transformers
(artifact 1) which are persisted at the end of the fit phase, and the
stream phase then fails: the run reports failure but the old transformer
files have already been overwritten. -/
theorem streaming_train_abort_c4_counterexample :
    (ContentTraining.trainModel 100 (some 1) none none true
      ContentTraining.staleStore).1 = false ∧
    (ContentTraining.trainModel 100 (some 1) none none true
      ContentTraining.staleStore).2 ≠ ContentTraining.staleStore ∧
    (ContentTraining.trainModel 100 (some 1) none none true
      ContentTraining.staleStore).2.transformers = some 1 := by
  refine ⟨by decide, by decide, by decide⟩

/-- C4 (amended): only a failure of the fit phase before the transformers
are saved (or an empty catalog) aborts the run with all artifacts
untouched. Once the fit phase completes, the new fitted transformers are
persisted immediately, so a stream-phase failure leaves them on disk next
to the old metadata and indices; and a finalize-phase failure additionally
leaves the new metadata arrays plus a prefix of the new per-language index
files. -/
theorem streaming_train_abort_c4 {Art : Type} (totalBooks : Nat)
    (fitResult : Option Art) (streamResult : Option (ContentTraining.StreamData Art))
    (finalizeFailAt : Option Nat) (loadOk : Bool) (st : ContentTraining.Store Art) :
    (fitResult = none →
      (ContentTraining.trainModel totalBooks fitResult streamResult
        finalizeFailAt loadOk st).2 = st) ∧
    (totalBooks = 0 →
      (ContentTraining.trainModel totalBooks fitResult streamResult
        finalizeFailAt loadOk st).2 = st) ∧
    (∀ t, fitResult = some t → streamResult = none →
      ContentTraining.shouldRetrain st = true → totalBooks ≠ 0 →
      (ContentTraining.trainModel totalBooks fitResult streamResult
          finalizeFailAt loadOk st).1 = false ∧
      (ContentTraining.trainModel totalBooks fitResult streamResult
          finalizeFailAt loadOk st).2 =
        { st with transformers := some t }) := by
  refine ⟨?_, ?_, ?_⟩
  · intro hf
    unfold ContentTraining.trainModel
    split
    · rfl
    · split
      · rfl
      · rw [hf]
        rfl
  · intro h0
    subst h0
    unfold ContentTraining.trainModel
    split
    · rfl
    · rfl
  · intro t hf hs hr h0
    unfold ContentTraining.trainModel
    rw [if_neg (by rw [hr]; simp), if_neg h0, hf]
    dsimp only [ContentTraining.fitTransformersOnSample]
    rw [hs]
    exact ⟨rfl, rfl⟩

theorem streaming_train_abort_c4_witness :
    ((none : Option Nat) = none →
      (ContentTraining.trainModel 100 (none : Option Nat)
        (none : Option (ContentTraining.StreamData Nat)) none true
        ContentTraining.staleStore).2 = ContentTraining.staleStore) ∧
    ((100 = 0 →
      (ContentTraining.trainModel 100 (none : Option Nat)
        (none : Option (ContentTraining.StreamData Nat)) none true
        ContentTraining.staleStore).2 = ContentTraining.staleStore)) ∧
    (ContentTraining.trainModel 100 (none : Option Nat)
      (none : Option (ContentTraining.StreamData Nat)) none true
      ContentTraining.staleStore).2 = ContentTraining.staleStore :=
  ⟨(streaming_train_abort_c4 100 none none none true ContentTraining.staleStore).1,
   (streaming_train_abort_c4 100 none none none true ContentTraining.staleStore).2.1,
   (streaming_train_abort_c4 100 none none none true ContentTraining.staleStore).1 rfl⟩

namespace FeaturePipe

/-- A raw MongoDB field value: a string, a list of strings, or absent. -/
inductive FieldVal where
  | str (s : String)
  | list (l : List String)
  | absent
  deriving Repr, DecidableEq

/-- A raw catalog book document with the fields read by
`_transform_single_book_to_vector`; machine floats are exact rationals. -/
structure Book where
  id : Option Nat
  summary : String
  genres : FieldVal
  author : FieldVal
  year : ℚ
  deriving Repr, DecidableEq

/-- `_parse_genres` of `ContentBasedRecommender.py`: a list is passed
through unchanged, a string is comma-split with empty pieces dropped,
anything else (including the `[]` default for a missing field) is empty. -/
def parseGenres : FieldVal → List String
  | .list l => l
  | .str s =>
    ((Interactions.splitCommas s.toList).map
      (fun cs => Py.pyStrip (String.mk cs))).filter (fun g => g ≠ "")
  | .absent => []

/-- `_prepare_authors` on the singleton `[book.get("author", "")]`: a list
is joined with ", ", a string is kept, and falsy values become "". -/
def prepareAuthor : FieldVal → String
  | .list l => if l.isEmpty then "" else String.intercalate ", " l
  | .str s => s
  | .absent => ""

/-- The fitted extractors (TF-IDF vectorizer, genre binarizer, author
one-hot encoder, year scaler) and the rows of the fitted 256-component
linear reducer, abstracted as the row vectors they produce. -/
structure Fitted where
  tfidf : String → List ℚ
  genre : List String → List ℚ
  author : String → List ℚ
  yearScale : ℚ → ℚ
  svdComponents : Fin 256 → List ℚ

/-- Dot product of two feature rows (missing positions are zero). -/
def dot : List ℚ → List ℚ → ℚ
  | [], _ => 0
  | _ :: _, [] => 0
  | a :: as, b :: bs => a * b + dot as bs

/-- The `hstack` of the four transformed blocks, with the genre and
author blocks weighted ×2 as in the source. -/
def combinedFeatures (F : Fitted) (b : Book) : List ℚ :=
  F.tfidf b.summary ++ (F.genre (parseGenres b.genres)).map (fun x => x * 2) ++
  (F.author (prepareAuthor b.author)).map (fun x => x * 2) ++ [F.yearScale b.year]

/-- The 256-dimensional reduced vector (`svd_reducer.transform`): one dot
product per fitted component row. -/
def reduced (F : Fitted) (b : Book) : Fin 256 → ℚ :=
  fun i => dot (F.svdComponents i) (combinedFeatures F b)

/-- Squared Euclidean norm of the reduced vector, exactly. -/
def normSq (v : Fin 256 → ℚ) : ℚ := ∑ i, v i ^ 2

/-- The vector returned by `_transform_single_book_to_vector`:
`sklearn.preprocessing.normalize` divides by the L2 norm but leaves an
all-zero row unchanged. Stated over the reals since the norm is a square
root. -/
noncomputable def finalVector (F : Fitted) (b : Book) : Fin 256 → ℝ :=
  fun i =>
    if normSq (reduced F b) = 0 then ((reduced F b i : ℚ) : ℝ)
    else ((reduced F b i : ℚ) : ℝ) / Real.sqrt ((normSq (reduced F b) : ℚ) : ℝ)

/-- The transform with its bounded insertion-order vector cache
(`self.vector_cache`): a hit returns the cached vector; a miss computes,
appends, and evicts the oldest 100 entries once the cache passes 1000.
The cache stores the exactly-represented reduced vector, from which the
returned normalized vector is determined. -/
def transformCached (F : Fitted) (cache : List (Nat × (Fin 256 → ℚ)))
    (b : Book) : (Fin 256 → ℚ) × List (Nat × (Fin 256 → ℚ)) :=
  match b.id with
  | none => (reduced F b, cache)
  | some bid =>
    match cache.find? (fun p => p.1 == bid) with
    | some p => (p.2, cache)
    | none =>
      let v := reduced F b
      let cache' := cache ++ [(bid, v)]
      let cache'' := if 1000 < cache'.length then cache'.drop 100 else cache'
      (v, cache'')

/-- Fitted extractors under which a particular book reduces to the zero
vector: its summary hits no fitted vocabulary, its genres and author are
unknown to the fitted encoders, and its year scales to 0, while the
fitted reducer rows are nonzero. -/
def zeroHit : Fitted :=
  { tfidf := fun _ => [0], genre := fun _ => [0], author := fun _ => [0],
    yearScale := fun _ => 0, svdComponents := fun _ => [1, 1, 1, 1] }

/-- A book outside the fitted sample's vocabulary. -/
def strangeBook : Book :=
  { id := none, summary := "zzz", genres := FieldVal.list ["unknowngenre"],
    author := FieldVal.str "unknownauthor", year := 0 }

theorem zeroHit_reduced : reduced zeroHit strangeBook = fun _ => 0 := by
  funext i
  show dot [1, 1, 1, 1] (combinedFeatures zeroHit strangeBook) = 0
  show dot [1, 1, 1, 1] ([0] ++ [0].map (fun x => x * 2) ++
    [0].map (fun x => x * 2) ++ [0]) = 0
  norm_num [dot]

end FeaturePipe

/-- C6 (counterexample): the returned vector is not always unit-norm. A
book sharing no vocabulary, genre or author with the fitted sample, whose
scaled year is 0, reduces to the all-zero vector; `normalize` leaves a
zero row unchanged, so the returned vector has L2 norm 0, not 1 — no
floating tolerance saves this. -/
theorem transform_unit_norm_c6_counterexample :
    ¬ (∑ i, (FeaturePipe.finalVector FeaturePipe.zeroHit
        FeaturePipe.strangeBook i) ^ 2) = 1 := by
  have hz : FeaturePipe.normSq
      (FeaturePipe.reduced FeaturePipe.zeroHit FeaturePipe.strangeBook) = 0 := by
    rw [FeaturePipe.zeroHit_reduced]
    simp [FeaturePipe.normSq]
  have hsum : (∑ i, (FeaturePipe.finalVector FeaturePipe.zeroHit
      FeaturePipe.strangeBook i) ^ 2) = 0 := by
    unfold FeaturePipe.finalVector
    simp only [hz, if_pos, FeaturePipe.zeroHit_reduced]
    norm_num
  rw [hsum]
  norm_num

/-- C6 (amended): transforming the same book with the same fitted
extractors is deterministic — a second call (through the vector cache)
returns the same vector as the first — and the returned 256-dimensional
vector has exact L2 norm 1 provided the reduced (pre-normalization)
vector is nonzero; a book whose reduced vector is zero is returned as the
zero vector. -/
theorem transform_deterministic_unit_norm_c6 :
    (∀ (F : FeaturePipe.Fitted) (cache : List (Nat × (Fin 256 → ℚ)))
      (b : FeaturePipe.Book),
      (FeaturePipe.transformCached F
        (FeaturePipe.transformCached F cache b).2 b).1 =
      (FeaturePipe.transformCached F cache b).1) ∧
    (∀ (F : FeaturePipe.Fitted) (b : FeaturePipe.Book),
      FeaturePipe.normSq (FeaturePipe.reduced F b) ≠ 0 →
      ∑ i, (FeaturePipe.finalVector F b i) ^ 2 = 1) := by
  constructor
  · intro F cache b
    unfold FeaturePipe.transformCached
    cases hid : b.id with
    | none => rfl
    | some bid =>
      dsimp only
      cases hfind : cache.find? (fun p => p.1 == bid) with
      | some p =>
        dsimp only
        rw [hfind]
      | none =>
        dsimp only
        by_cases hlen :
            1000 < (cache ++ [(bid, FeaturePipe.reduced F b)]).length
        · rw [if_pos hlen]
          have h100 : 100 ≤ cache.length := by
            rw [List.length_append] at hlen
            simp only [List.length_singleton] at hlen
            omega
          rw [List.drop_append_of_le_length h100]
          have hdnone : (cache.drop 100).find?
              (fun p => p.1 == bid) = none := by
            rw [List.find?_eq_none] at hfind ⊢
            intro x hx
            exact hfind x (List.drop_subset _ _ hx)
          rw [Interactions.find?_append_none hdnone _ (by simp)]
        · rw [if_neg hlen]
          rw [Interactions.find?_append_none hfind _ (by simp)]
  · intro F b h
    have hnn : (0 : ℚ) ≤ FeaturePipe.normSq (FeaturePipe.reduced F b) := by
      unfold FeaturePipe.normSq
      exact Finset.sum_nonneg (fun i _ => sq_nonneg _)
    have hposQ : (0 : ℚ) < FeaturePipe.normSq (FeaturePipe.reduced F b) :=
      lt_of_le_of_ne hnn (Ne.symm h)
    have hpos : (0 : ℝ) <
        ((FeaturePipe.normSq (FeaturePipe.reduced F b) : ℚ) : ℝ) := by
      exact_mod_cast hposQ
    have hcast : ((FeaturePipe.normSq (FeaturePipe.reduced F b) : ℚ) : ℝ) =
        ∑ i, ((FeaturePipe.reduced F b i : ℚ) : ℝ) ^ 2 := by
      unfold FeaturePipe.normSq
      push_cast
      rfl
    unfold FeaturePipe.finalVector
    simp only [if_neg h]
    calc ∑ i, (((FeaturePipe.reduced F b i : ℚ) : ℝ) /
          Real.sqrt ((FeaturePipe.normSq (FeaturePipe.reduced F b) : ℚ) : ℝ)) ^ 2
        = (∑ i, ((FeaturePipe.reduced F b i : ℚ) : ℝ) ^ 2) /
          (Real.sqrt ((FeaturePipe.normSq (FeaturePipe.reduced F b) : ℚ) : ℝ)) ^ 2 := by
          rw [Finset.sum_div]
          refine Finset.sum_congr rfl ?_
          intro i _
          rw [div_pow]
      _ = (∑ i, ((FeaturePipe.reduced F b i : ℚ) : ℝ) ^ 2) /
          ((FeaturePipe.normSq (FeaturePipe.reduced F b) : ℚ) : ℝ) := by
          rw [Real.sq_sqrt hpos.le]
      _ = 1 := by
          rw [← hcast]
          exact div_self hpos.ne'

namespace FeaturePipe

/-- Fitted extractors with one vocabulary hit and identity-like reducer. -/
def unitFit : Fitted :=
  { tfidf := fun _ => [1], genre := fun _ => [], author := fun _ => [],
    yearScale := fun _ => 0, svdComponents := fun _ => [1] }

/-- A plain in-vocabulary book. -/
def plainBook : Book :=
  { id := some 7, summary := "s", genres := FieldVal.absent,
    author := FieldVal.absent, year := 0 }

theorem unitFit_reduced : reduced unitFit plainBook = fun _ => 1 := by
  funext i
  show dot [1] ([1] ++ ([] : List ℚ).map (fun x => x * 2) ++
    ([] : List ℚ).map (fun x => x * 2) ++ [(0 : ℚ)]) = 1
  norm_num [dot]

theorem unitFit_normSq_ne :
    normSq (reduced unitFit plainBook) ≠ 0 := by
  rw [unitFit_reduced]
  show (∑ _i : Fin 256, (1 : ℚ) ^ 2) ≠ 0
  rw [Finset.sum_const, Finset.card_univ, Fintype.card_fin]
  norm_num

end FeaturePipe

theorem transform_deterministic_unit_norm_c6_witness :
    FeaturePipe.normSq
      (FeaturePipe.reduced FeaturePipe.unitFit FeaturePipe.plainBook) ≠ 0 ∧
    ∑ i, (FeaturePipe.finalVector FeaturePipe.unitFit FeaturePipe.plainBook i) ^ 2
      = 1 :=
  ⟨FeaturePipe.unitFit_normSq_ne,
    transform_deterministic_unit_norm_c6.2 FeaturePipe.unitFit
      FeaturePipe.plainBook FeaturePipe.unitFit_normSq_ne⟩

/-! ### C7 — `get_similar_books_for_user` (ContentBasedRecommender.py 582-738) -/

namespace SimilarBooks

/-- The book record fields consulted by the recommendation loop. -/
structure BookRec where
  name : String
  author : String
  language : String
deriving DecidableEq, Repr

/-- One emitted recommendation (the dict appended at lines 713-729). -/
structure RecEntry where
  bookId : Nat
  name : String
  similarity : ℚ
  recommendationScore : ℚ
  confidence : ℚ
  basedOn : String
deriving DecidableEq, Repr

/-- Python list indexing `xs[i]`: nonnegative indices from the front,
negative indices wrap from the back, anything further raises IndexError
(modelled as `none`). -/
def pyGet {α : Type} (xs : List α) (i : Int) : Option α :=
  if 0 ≤ i then xs.get? i.toNat
  else if -i ≤ (xs.length : Int) then xs.get? (xs.length - (-i).toNat)
  else none

/-- Python dict lookup `self.book_name_to_id[name]` / `.get`. -/
def lookupStr (m : List (String × Nat)) (k : String) : Option Nat :=
  (m.find? fun p => p.1 == k).map Prod.snd

/-- Python dict lookup `self.book_language_map.get(book_id)`. -/
def lookupLang (m : List (Nat × String)) (k : Nat) : Option String :=
  (m.find? fun p => p.1 == k).map Prod.snd

/-- State consulted by `get_similar_books_for_user`, after any reload.
`searchOf lang k` is the FAISS answer `zip(I[0], D[0])` for a `k`-neighbour
query on the `lang` index; `idsOf lang` is the aligned id list; `db` is the
record store behind `_get_books_info_by_ids`. -/
structure Env where
  modelLoaded : Bool
  indicesLoaded : Bool
  loadedLanguages : List String
  userLanguages : List String
  loadOk : Bool
  baseBookName : Option String
  bookNameToId : List (String × Nat)
  bookIndexKeys : List Nat
  bookLanguageMap : List (Nat × String)
  indexLangs : List String
  idsOf : String → List Nat
  baseBookOk : Bool
  vectorOk : Bool
  interacted : List String
  searchOf : String → Nat → List (Int × ℚ)
  db : Nat → Option BookRec

/-- Lines 596-607: reload when the model or indices are missing, or the
user needs a language that is not loaded. -/
def needsReload (e : Env) : Bool :=
  !e.modelLoaded || !e.indicesLoaded ||
    !(e.userLanguages.all fun l => e.loadedLanguages.contains l)

/-- Lines 648-653: the anchor book's language if its index is loaded,
falling back to english, else give up. -/
def baseLangOf (e : Env) (baseId : Nat) : Option String :=
  match lookupLang e.bookLanguageMap baseId with
  | some l =>
    if l != "" && e.indexLangs.contains l then some l
    else if e.indexLangs.contains "english" then some "english" else none
  | none =>
    if e.indexLangs.contains "english" then some "english" else none

/-- The guard cascade of lines 596-667: every early `return []` path gives
`none`; otherwise the computed base language, anchor id and anchor name. -/
def resolve (e : Env) : Option (String × Nat × String) :=
  if needsReload e && !e.loadOk then none
  else match e.baseBookName with
  | none => none
  | some bn =>
    if bn == "" then none
    else match lookupStr e.bookNameToId bn with
    | none => none
    | some baseId =>
      if !(e.bookIndexKeys.contains baseId) then none
      else match baseLangOf e baseId with
      | none => none
      | some lang =>
        if !e.baseBookOk || !e.vectorOk then none
        else some (lang, baseId, bn)

/-- Lines 687-691, the candidate-id set comprehension: it indexes
`all_ids[i]` for every returned position with `i < len(all_ids)`, so a
position below `-len(all_ids)` raises IndexError before the loop runs
(the outer `except` then returns `[]`). -/
def candidatesOk (allIds : List Nat) : List (Int × ℚ) → Bool
  | [] => true
  | (i, _) :: rest =>
    if i < (allIds.length : Int) then
      match pyGet allIds i with
      | none => false
      | some _ => candidatesOk allIds rest
    else candidatesOk allIds rest

/-- The loop of lines 699-732: skip positions past the id list, skip the
anchor, crash (`none`) on a candidate missing from the batch fetch
(`book["name"]` on `None`), skip already-interacted names, append with
`confidence = min(score, 1)`, and break once `limit` entries exist —
checked only after an append, since every skip is a `continue`. -/
def buildRecs (allIds : List Nat) (baseId : Nat) (db : Nat → Option BookRec)
    (interacted : List String) (baseName : String) (limit : Nat) :
    List (Int × ℚ) → List RecEntry → Option (List RecEntry)
  | [], acc => some acc
  | (i, s) :: rest, acc =>
    if (allIds.length : Int) ≤ i then
      buildRecs allIds baseId db interacted baseName limit rest acc
    else
      match pyGet allIds i with
      | none => none
      | some bid =>
        if bid = baseId then
          buildRecs allIds baseId db interacted baseName limit rest acc
        else
          match db bid with
          | none => none
          | some book =>
            if book.name ∈ interacted then
              buildRecs allIds baseId db interacted baseName limit rest acc
            else
              let acc2 := acc ++
                [⟨bid, book.name, s, s * 100, min s 1, baseName⟩]
              if limit ≤ acc2.length then some acc2
              else buildRecs allIds baseId db interacted baseName limit rest acc2

/-- `get_similar_books_for_user`: resolve the anchor, query the base
language index for `limit + len(interacted)` neighbours (line 682), run
the candidate comprehension, then the recommendation loop; any raised
exception yields `[]`. -/
def getSimilarBooks (e : Env) (limit : Nat) : List RecEntry :=
  match resolve e with
  | none => []
  | some r =>
    if candidatesOk (e.idsOf r.1) (e.searchOf r.1 (limit + e.interacted.length)) then
      match buildRecs (e.idsOf r.1) r.2.1 e.db e.interacted r.2.2 limit
          (e.searchOf r.1 (limit + e.interacted.length)) [] with
      | some recs => recs
      | none => []
    else []

theorem buildRecs_length (allIds : List Nat) (baseId : Nat)
    (db : Nat → Option BookRec) (interacted : List String) (baseName : String)
    (limit : Nat) :
    ∀ (pairs : List (Int × ℚ)) (acc res : List RecEntry), acc.length < limit →
      buildRecs allIds baseId db interacted baseName limit pairs acc = some res →
      res.length ≤ limit := by
  intro pairs
  induction pairs with
  | nil =>
    intro acc res hlt h
    unfold buildRecs at h
    cases h
    omega
  | cons p rest ih =>
    intro acc res hlt h
    obtain ⟨i, s⟩ := p
    unfold buildRecs at h
    dsimp only at h
    by_cases h1 : (allIds.length : Int) ≤ i
    · rw [if_pos h1] at h
      exact ih acc res hlt h
    · rw [if_neg h1] at h
      cases hg : pyGet allIds i with
      | none => rw [hg] at h; cases h
      | some bid =>
        rw [hg] at h
        dsimp only at h
        by_cases h2 : bid = baseId
        · rw [if_pos h2] at h
          exact ih acc res hlt h
        · rw [if_neg h2] at h
          cases hdb : db bid with
          | none => rw [hdb] at h; cases h
          | some book =>
            rw [hdb] at h
            dsimp only at h
            by_cases h3 : book.name ∈ interacted
            · rw [if_pos h3] at h
              exact ih acc res hlt h
            · rw [if_neg h3] at h
              by_cases h4 : limit ≤
                  (acc ++ [(⟨bid, book.name, s, s * 100, min s 1, baseName⟩ : RecEntry)]).length
              · rw [if_pos h4] at h
                cases h
                simp only [List.length_append, List.length_singleton]
                omega
              · rw [if_neg h4] at h
                have hlt2 : (acc ++
                    [(⟨bid, book.name, s, s * 100, min s 1, baseName⟩ : RecEntry)]).length < limit := by
                  omega
                exact ih _ res hlt2 h

theorem buildRecs_mem (allIds : List Nat) (baseId : Nat)
    (db : Nat → Option BookRec) (interacted : List String) (baseName : String)
    (limit : Nat) :
    ∀ (pairs : List (Int × ℚ)) (acc res : List RecEntry),
      buildRecs allIds baseId db interacted baseName limit pairs acc = some res →
      ∀ r ∈ res, r ∈ acc ∨ (r.bookId ≠ baseId ∧ r.name ∉ interacted) := by
  intro pairs
  induction pairs with
  | nil =>
    intro acc res h r hr
    unfold buildRecs at h
    cases h
    exact Or.inl hr
  | cons p rest ih =>
    intro acc res h r hr
    obtain ⟨i, s⟩ := p
    unfold buildRecs at h
    dsimp only at h
    by_cases h1 : (allIds.length : Int) ≤ i
    · rw [if_pos h1] at h
      exact ih acc res h r hr
    · rw [if_neg h1] at h
      cases hg : pyGet allIds i with
      | none => rw [hg] at h; cases h
      | some bid =>
        rw [hg] at h
        dsimp only at h
        by_cases h2 : bid = baseId
        · rw [if_pos h2] at h
          exact ih acc res h r hr
        · rw [if_neg h2] at h
          cases hdb : db bid with
          | none => rw [hdb] at h; cases h
          | some book =>
            rw [hdb] at h
            dsimp only at h
            by_cases h3 : book.name ∈ interacted
            · rw [if_pos h3] at h
              exact ih acc res h r hr
            · rw [if_neg h3] at h
              have hnew : ∀ x ∈ acc ++
                  [(⟨bid, book.name, s, s * 100, min s 1, baseName⟩ : RecEntry)],
                  x ∈ acc ∨ (x.bookId ≠ baseId ∧ x.name ∉ interacted) := by
                intro x hx
                rcases List.mem_append.mp hx with hx' | hx'
                · exact Or.inl hx'
                · rcases List.mem_singleton.mp hx' with rfl
                  exact Or.inr ⟨h2, h3⟩
              by_cases h4 : limit ≤
                  (acc ++ [(⟨bid, book.name, s, s * 100, min s 1, baseName⟩ : RecEntry)]).length
              · rw [if_pos h4] at h
                cases h
                exact hnew r hr
              · rw [if_neg h4] at h
                rcases ih _ res h r hr with hx | hx
                · exact hnew r hx
                · exact Or.inr hx

theorem candidatesOk_filter (allIds : List Nat) :
    ∀ pairs : List (Int × ℚ),
      candidatesOk allIds (pairs.filter fun p => p.1 < (allIds.length : Int)) =
        candidatesOk allIds pairs := by
  intro pairs
  induction pairs with
  | nil => rfl
  | cons p rest ih =>
    obtain ⟨i, s⟩ := p
    by_cases h : i < (allIds.length : Int)
    · rw [List.filter_cons_of_pos (by simpa using h)]
      unfold candidatesOk
      rw [if_pos h, if_pos h]
      cases pyGet allIds i with
      | none => rfl
      | some _ => exact ih
    · rw [List.filter_cons_of_neg (by simpa using h)]
      conv_rhs => unfold candidatesOk
      rw [if_neg h]
      exact ih

theorem buildRecs_filter (allIds : List Nat) (baseId : Nat)
    (db : Nat → Option BookRec) (interacted : List String) (baseName : String)
    (limit : Nat) :
    ∀ (pairs : List (Int × ℚ)) (acc : List RecEntry),
      buildRecs allIds baseId db interacted baseName limit
          (pairs.filter fun p => p.1 < (allIds.length : Int)) acc =
        buildRecs allIds baseId db interacted baseName limit pairs acc := by
  intro pairs
  induction pairs with
  | nil => intro acc; rfl
  | cons p rest ih =>
    intro acc
    obtain ⟨i, s⟩ := p
    by_cases h : i < (allIds.length : Int)
    · rw [List.filter_cons_of_pos (by simpa using h)]
      conv_lhs => unfold buildRecs
      conv_rhs => unfold buildRecs
      dsimp only
      rw [if_neg (by omega : ¬ (allIds.length : Int) ≤ i),
          if_neg (by omega : ¬ (allIds.length : Int) ≤ i)]
      cases pyGet allIds i with
      | none => rfl
      | some bid =>
        dsimp only
        by_cases h2 : bid = baseId
        · rw [if_pos h2, if_pos h2]
          exact ih acc
        · rw [if_neg h2, if_neg h2]
          cases db bid with
          | none => rfl
          | some book =>
            dsimp only
            by_cases h3 : book.name ∈ interacted
            · rw [if_pos h3, if_pos h3]
              exact ih acc
            · rw [if_neg h3, if_neg h3]
              by_cases h4 : limit ≤
                  (acc ++ [(⟨bid, book.name, s, s * 100, min s 1, baseName⟩ : RecEntry)]).length
              · rw [if_pos h4, if_pos h4]
              · rw [if_neg h4, if_neg h4]
                exact ih _
    · rw [List.filter_cons_of_neg (by simpa using h)]
      conv_rhs => unfold buildRecs
      dsimp only
      rw [if_pos (by omega : (allIds.length : Int) ≤ i)]
      exact ih acc

/-- limit = 0 scenario: one interacted book makes the search fetch one
neighbour, which passes every filter; the break check runs only after
the append, so one recommendation is returned. -/
def cexEnv : Env :=
  { modelLoaded := true, indicesLoaded := true,
    loadedLanguages := ["english"], userLanguages := ["english"],
    loadOk := true, baseBookName := some "A",
    bookNameToId := [("A", 1)], bookIndexKeys := [1],
    bookLanguageMap := [(1, "english")], indexLangs := ["english"],
    idsOf := fun _ => [5], baseBookOk := true, vectorOk := true,
    interacted := ["Z"],
    searchOf := fun _ k => if k == 1 then [((0 : Int), (1 : ℚ))] else [],
    db := fun b => if b == 5 then some ⟨"B", "X", "english"⟩ else none }

/-- FAISS `-1` sentinel scenario: the position `-1` is not dropped by the
`i < len(all_ids)` check; Python indexing wraps it to the LAST id. -/
def cexEnvNeg : Env :=
  { modelLoaded := true, indicesLoaded := true,
    loadedLanguages := ["english"], userLanguages := ["english"],
    loadOk := true, baseBookName := some "A",
    bookNameToId := [("A", 1)], bookIndexKeys := [1],
    bookLanguageMap := [(1, "english")], indexLangs := ["english"],
    idsOf := fun _ => [5, 7], baseBookOk := true, vectorOk := true,
    interacted := [],
    searchOf := fun _ k => if k == 10 then [((-1 : Int), (1 : ℚ))] else [],
    db := fun b => if b == 5 then some ⟨"B", "X", "english"⟩
      else if b == 7 then some ⟨"G", "Y", "english"⟩ else none }

end SimilarBooks

/-- C7 counterexample: the claim does not hold verbatim. (1) With
`limit = 0` and one interacted book, the loop appends a recommendation
before its first break check, so the result has length 1 > limit.
(2) A returned position of `-1` (the FAISS sentinel for a missing
neighbour) is not dropped by the `i < len(all_ids)` guard: Python
negative indexing wraps it to the last aligned id, which is emitted. -/
theorem similar_query_filters_c7_counterexample :
    ((SimilarBooks.getSimilarBooks SimilarBooks.cexEnv 0).length = 1 ∧
      ¬ (SimilarBooks.getSimilarBooks SimilarBooks.cexEnv 0).length ≤ 0) ∧
    (SimilarBooks.getSimilarBooks SimilarBooks.cexEnvNeg 10).map
        SimilarBooks.RecEntry.name = ["G"] := by
  constructor
  · constructor
    · rfl
    · decide
  · rfl

/-- C7 (amended): the single-anchor similarity query searches the resolved
base-language index for `limit + (count of already-interacted books)`
neighbours — the result depends on the FAISS answer only at that key (third
conjunct); whenever `limit ≥ 1` at most `limit` results are returned (first
conjunct; with `limit = 0` one result can slip out, see the counterexample);
no returned entry is the anchor book or an already-interacted book (second
conjunct); and positions at or past the length of the aligned id list are
dropped — pre-deleting them from the FAISS answer never changes the result
(fourth conjunct). -/
theorem similar_query_filters_c7 :
    (∀ (e : SimilarBooks.Env) (limit : Nat), 1 ≤ limit →
      (SimilarBooks.getSimilarBooks e limit).length ≤ limit) ∧
    (∀ (e : SimilarBooks.Env) (limit : Nat) (lang : String) (baseId : Nat)
        (bn : String), SimilarBooks.resolve e = some (lang, baseId, bn) →
      ∀ r ∈ SimilarBooks.getSimilarBooks e limit,
        r.bookId ≠ baseId ∧ r.name ∉ e.interacted) ∧
    (∀ (e : SimilarBooks.Env) (f : String → Nat → List (Int × ℚ)) (limit : Nat),
      (∀ l, f l (limit + e.interacted.length) =
        e.searchOf l (limit + e.interacted.length)) →
      SimilarBooks.getSimilarBooks { e with searchOf := f } limit =
        SimilarBooks.getSimilarBooks e limit) ∧
    (∀ (e : SimilarBooks.Env) (limit : Nat),
      SimilarBooks.getSimilarBooks
        { e with searchOf := (fun l k =>
            (e.searchOf l k).filter (fun p => p.1 < ((e.idsOf l).length : Int))) }
        limit = SimilarBooks.getSimilarBooks e limit) := by
  refine ⟨?_, ?_, ?_, ?_⟩
  · intro e limit hlim
    unfold SimilarBooks.getSimilarBooks
    cases hres : SimilarBooks.resolve e with
    | none => simp
    | some r =>
      dsimp only
      cases hok : SimilarBooks.candidatesOk (e.idsOf r.1)
          (e.searchOf r.1 (limit + e.interacted.length)) with
      | false => rw [if_neg (by simp [hok])]; simp
      | true =>
        rw [if_pos (by simp [hok])]
        cases hb : SimilarBooks.buildRecs (e.idsOf r.1) r.2.1 e.db e.interacted
            r.2.2 limit (e.searchOf r.1 (limit + e.interacted.length)) [] with
        | none => simp
        | some recs =>
          dsimp only
          exact SimilarBooks.buildRecs_length _ _ _ _ _ _ _ _ _
            (by simpa using hlim) hb
  · intro e limit lang baseId bn hres r hr
    unfold SimilarBooks.getSimilarBooks at hr
    rw [hres] at hr
    dsimp only at hr
    by_cases hok : SimilarBooks.candidatesOk (e.idsOf lang)
        (e.searchOf lang (limit + e.interacted.length)) = true
    · rw [if_pos hok] at hr
      cases hb : SimilarBooks.buildRecs (e.idsOf lang) baseId e.db e.interacted
          bn limit (e.searchOf lang (limit + e.interacted.length)) [] with
      | none => rw [hb] at hr; cases hr
      | some recs =>
        rw [hb] at hr
        dsimp only at hr
        rcases SimilarBooks.buildRecs_mem _ _ _ _ _ _ _ _ _ hb r hr with hx | hx
        · cases hx
        · exact hx
    · rw [if_neg hok] at hr
      cases hr
  · intro e f limit hf
    unfold SimilarBooks.getSimilarBooks
    have hres : SimilarBooks.resolve { e with searchOf := f } =
        SimilarBooks.resolve e := rfl
    rw [hres]
    cases SimilarBooks.resolve e with
    | none => rfl
    | some r =>
      dsimp only
      rw [hf r.1]
  · intro e limit
    unfold SimilarBooks.getSimilarBooks
    have hres : SimilarBooks.resolve { e with searchOf := (fun l k =>
        (e.searchOf l k).filter (fun p => p.1 < ((e.idsOf l).length : Int))) } =
        SimilarBooks.resolve e := rfl
    rw [hres]
    cases SimilarBooks.resolve e with
    | none => rfl
    | some r =>
      dsimp only
      rw [SimilarBooks.candidatesOk_filter, SimilarBooks.buildRecs_filter]

theorem similar_query_filters_c7_witness :
    (SimilarBooks.getSimilarBooks SimilarBooks.cexEnv 1).length ≤ 1 ∧
    (∀ r ∈ SimilarBooks.getSimilarBooks SimilarBooks.cexEnv 1,
      r.bookId ≠ 1 ∧ r.name ∉ SimilarBooks.cexEnv.interacted) ∧
    SimilarBooks.getSimilarBooks
        { SimilarBooks.cexEnv with searchOf := SimilarBooks.cexEnv.searchOf } 1 =
      SimilarBooks.getSimilarBooks SimilarBooks.cexEnv 1 :=
  ⟨similar_query_filters_c7.1 SimilarBooks.cexEnv 1 (by decide),
   similar_query_filters_c7.2.1 SimilarBooks.cexEnv 1 "english" 1 "A" (by decide),
   similar_query_filters_c7.2.2.1 SimilarBooks.cexEnv SimilarBooks.cexEnv.searchOf 1
     (fun _ => rfl)⟩
